import Mathlib

/-!
# Samsung FIMG2D driver core (`drivers/media/video/fimg2d/fimg2d_drv.c`)

A shallow embedding of the dispatch and synchronisation code of the driver:
`fimg2d_do_bitblt`, `fimg2d_irq`, `fimg2d_request_bitblt`, `fimg2d_open`,
`fimg2d_release`, `fimg2d_ioctl`, `fimg2d_suspend` and `fimg2d_resume`.

* Kernel memory reachable from the controller is `Mem`: the flags and queue of
  `struct fimg2d_control` and the contexts, addressed by pointer.
* `State` adds the two locks, the time spent in `mdelay` and a log of the
  calls the driver makes, in program order.
* Code that is not in this file of the driver (the hardware callbacks
  `ctrl->blit` and `ctrl->stop`, `fimg2d_add_command`, `platform_sysmmu_on`,
  `wait_event_timeout`) is a parameter, `Ops`.
* What other execution contexts (interrupt handler, worker) do while a caller
  busy-waits in `mdelay` is a parameter, `Interference`.
* The preprocessor switches are a parameter, `Config`.
* Entry points run one at a time: each takes `drvlock` for its whole critical
  section, so a caller never finds it taken. Concurrency shows only as
  `Interference` during a busy-wait.
-/

namespace Fimg2d

/-! ## Constants -/

/-- The macro `POLL_TIMEOUT`, 2: milliseconds per `mdelay`. -/
def POLL_TIMEOUT : Nat := 2

/-- The macro `POLL_RETRY`, 1000. -/
def POLL_RETRY : Nat := 1000

/-- The macro `BUSFREQ_400MHZ`, 400000. -/
def BUSFREQ_400MHZ : Nat := 400000

/-- Linux errno `EPERM`. -/
def EPERM : Int := 1

/-- Linux errno `ENOMEM`. -/
def ENOMEM : Int := 12

/-- Linux errno `EFAULT`. -/
def EFAULT : Int := 14

/-- Linux errno `EBUSY`. -/
def EBUSY : Int := 16

/-- Linux errno `ETIME`. -/
def ETIME : Int := 62

/-- Linux `irqreturn_t` value `IRQ_HANDLED`. -/
def IRQ_HANDLED : Int := 1

/-- Modelled from the spec: `enum driver_act` of `fimg2d.h` (outside this file). The
activation state is Active or Deactivated; `fimg2d_setup_controller` stores
`DRV_ACT` and the admission gate of `fimg2d_ioctl` admits exactly when the
stored value is zero, so Active is `0`. -/
def DRV_ACT : Int := 0

/-- Modelled from the spec: the Deactivated member of `enum driver_act`. -/
def DRV_DEACT : Int := 1

/-- The preprocessor switches the file is compiled under. -/
structure Config where
  CONFIG_PM_RUNTIME : Bool
  BLIT_WORKQUE : Bool
  CONFIG_BUSFREQ_OPP : Bool
  CONFIG_CPU_FREQ : Bool
  deriving DecidableEq, Repr

/-! ## Data model -/

/-- A queued blit command: the context that owns it and its payload. -/
structure fimg2d_bltcmd where
  ctx : Nat
  blt : Nat
  deriving DecidableEq, Repr

/-- The fields of `struct fimg2d_context` this file touches. -/
structure fimg2d_context where
  mm : Nat
  ncmd : Int
  deriving DecidableEq, Repr

/-- The data fields of `struct fimg2d_control` this file touches. `contexts`
is the context set of the spec's data model. -/
structure fimg2d_control where
  drvact : Int
  suspended : Int
  clkon : Int
  busy : Int
  nctx : Int
  cmd_q : List fimg2d_bltcmd
  contexts : List Nat
  deriving DecidableEq, Repr

/-- Kernel memory reachable from the controller: the controller's data and the
contexts, addressed by pointer. -/
structure Mem where
  ctrl : fimg2d_control
  ctx : Nat → fimg2d_context

/-- The kernel's `struct file`: only `private_data`, the pointer to the context. -/
structure file where
  private_data : Nat
  deriving DecidableEq, Repr

/-- The calls the driver makes, as they appear in the log: lock operations,
calls of code outside the file, stores to `drvact` and `suspended`, and the
polls of the two drain loops. Reads of the flags are not logged. -/
inductive Event where
  | g2d_lock_drvlock
  | g2d_unlock_drvlock
  | g2d_spin_lock_bltlock
  | g2d_spin_unlock_bltlock
  | fimg2d_clk_on
  | fimg2d_clk_off
  | pm_runtime_get_sync
  | pm_runtime_put_sync
  | platform_sysmmu_on (ret : Int)
  | platform_sysmmu_off
  | blit (ret : Int)
  | stop
  | warn_on
  | fimg2d_add_command (ctx : Nat) (ret : Int)
  | fimg2d_request_bitblt (ctx : Nat)
  | queue_work
  | wait_event_timeout (ctx : Nat) (ret : Int)
  | atomic_set_drvact (val : Int)
  | atomic_set_suspended (val : Int)
  | atomic_read_ncmd (ctx : Nat) (val : Int)
  | fimg2d_queue_is_empty (empty : Bool)
  | mdelay (ms : Nat)
  | kzalloc (ptr : Option Nat)
  | kfree (ptr : Nat)
  | fimg2d_add_context (ctx : Nat)
  | fimg2d_del_context (ctx : Nat)
  | dev_lock (freq : Nat)
  | dev_unlock
  | exynos_cpufreq_lock_freq (flag : Nat)
  | copy_to_user (hw : Int) (sw : Int) (ok : Bool)
  | copy_from_user (val : Option Int)
  | unknown_ioctl
  deriving DecidableEq, Repr

/-- The driver's state: memory, the coarse lock `drvlock`, the fine lock
`bltlock`, the milliseconds spent in `mdelay`, and the log of calls. -/
structure State where
  mem : Mem
  drvlock : Bool
  bltlock : Bool
  now : Nat
  log : List Event

/-- Code the file calls but does not define. Each takes the memory it can
reach and returns its result and the memory it leaves. -/
structure Ops where
  /-- The function `fimg2d_add_command(ctrl, ctx, arg)` of `fimg2d_ctx.c`. -/
  fimg2d_add_command : Mem → Nat → Nat → Int × Mem
  /-- The hardware callback `ctrl->blit(ctrl)`. -/
  blit : Mem → Int × Mem
  /-- The hardware callback `ctrl->stop(ctrl)`. -/
  stop : Mem → Mem
  /-- The return value of `platform_sysmmu_on(ctrl->dev)`. -/
  platform_sysmmu_on : Mem → Int
  /-- The sleep `wait_event_timeout(ctx->wait_q, !ncmd, CTX_TIMEOUT)`: the remaining
  jiffies (0 on timeout) and the memory left by whatever ran meanwhile. -/
  wait_event_timeout : Mem → Nat → Int × Mem
  /-- The field `pdata->hw_ver` of the platform data. -/
  hw_ver : Int

/-- What other execution contexts do to the unlocked fields during the
`mdelay` that starts at time `t`: the command queue, a context's pending
count, and the `busy` and `clkon` flags. `drvact`, `suspended` and the context
set are written only under `drvlock`, which the waiting caller holds. -/
structure Interference where
  cmd_q : Nat → List fimg2d_bltcmd → List fimg2d_bltcmd
  ncmd : Nat → Nat → Int → Int
  busy : Nat → Int → Int
  clkon : Nat → Int → Int

/-- The user memory an ioctl argument points to. -/
structure UserArg where
  addr : Nat
  /-- What `copy_from_user` reads there, `none` when it faults. -/
  readable : Option Int
  /-- Whether `copy_to_user` succeeds there. -/
  writable : Bool
  deriving DecidableEq, Repr

/-- The ioctl numbers of `fimg2d.h`; `other` is any number that is none of the
three. -/
inductive IoctlCmd where
  | FIMG2D_BITBLT_BLIT
  | FIMG2D_BITBLT_VERSION
  | FIMG2D_BITBLT_ACTIVATE
  | other (nr : Nat)
  deriving DecidableEq, Repr

/-! ## Primitives -/

/-- Append one call to the log. -/
def record (e : Event) (s : State) : State :=
  { s with log := s.log ++ [e] }

/-- The call `g2d_lock(&ctrl->drvlock)`. -/
def g2d_lock (s : State) : State :=
  record Event.g2d_lock_drvlock { s with drvlock := true }

/-- The call `g2d_unlock(&ctrl->drvlock)`. -/
def g2d_unlock (s : State) : State :=
  record Event.g2d_unlock_drvlock { s with drvlock := false }

/-- The call `g2d_spin_lock(&ctrl->bltlock, flags)`. -/
def g2d_spin_lock (s : State) : State :=
  record Event.g2d_spin_lock_bltlock { s with bltlock := true }

/-- The call `g2d_spin_unlock(&ctrl->bltlock, flags)`. -/
def g2d_spin_unlock (s : State) : State :=
  record Event.g2d_spin_unlock_bltlock { s with bltlock := false }

/-- Store into the controller. -/
def set_ctrl (f : fimg2d_control → fimg2d_control) (s : State) : State :=
  { s with mem := { s.mem with ctrl := f s.mem.ctrl } }

/-- The store `atomic_set(&ctrl->drvact, val)`. -/
def atomic_set_drvact (val : Int) (s : State) : State :=
  record (Event.atomic_set_drvact val) (set_ctrl (fun c => { c with drvact := val }) s)

/-- The store `atomic_set(&ctrl->suspended, val)`. -/
def atomic_set_suspended (val : Int) (s : State) : State :=
  record (Event.atomic_set_suspended val) (set_ctrl (fun c => { c with suspended := val }) s)

/-- Modelled from the spec: `fimg2d_clk_on` of `fimg2d_clk.c` (outside this file):
power up the clock domain and set `clock_on = true`. -/
def fimg2d_clk_on (s : State) : State :=
  record Event.fimg2d_clk_on (set_ctrl (fun c => { c with clkon := 1 }) s)

/-- Modelled from the spec: `fimg2d_clk_off` of `fimg2d_clk.c` (outside this file):
power down the clock domain and set `clock_on = false`. -/
def fimg2d_clk_off (s : State) : State :=
  record Event.fimg2d_clk_off (set_ctrl (fun c => { c with clkon := 0 }) s)

/-- Modelled from the spec: `fimg2d_add_context` of `fimg2d_ctx.c` (outside
this file): register the context into the controller's context set and increment
`context_count`. -/
def fimg2d_add_context (ctx : Nat) (s : State) : State :=
  record (Event.fimg2d_add_context ctx)
    (set_ctrl (fun c => { c with contexts := ctx :: c.contexts, nctx := c.nctx + 1 }) s)

/-- Modelled from the spec: `fimg2d_del_context` of `fimg2d_ctx.c` (outside
this file): remove the context from the controller's context set; `context_count`
is the number of live contexts, so it goes down by one. -/
def fimg2d_del_context (ctx : Nat) (s : State) : State :=
  record (Event.fimg2d_del_context ctx)
    (set_ctrl (fun c => { c with contexts := c.contexts.filter (fun p => p != ctx),
                                 nctx := c.nctx - 1 }) s)

/-- The test `fimg2d_queue_is_empty(&ctrl->cmd_q)`, that is `list_empty`. -/
def fimg2d_queue_is_empty (q : List fimg2d_bltcmd) : Bool :=
  q.isEmpty

/-- The call `mdelay(ms)`: busy-wait; meanwhile the other execution contexts act on the
unlocked fields. -/
def mdelay (env : Interference) (ms : Nat) (s : State) : State :=
  { s with
    mem :=
      { ctrl := { s.mem.ctrl with
                  cmd_q := env.cmd_q s.now s.mem.ctrl.cmd_q
                  busy := env.busy s.now s.mem.ctrl.busy
                  clkon := env.clkon s.now s.mem.ctrl.clkon }
        ctx := fun p => { s.mem.ctx p with ncmd := env.ncmd s.now p (s.mem.ctx p).ncmd } }
    now := s.now + ms
    log := s.log ++ [Event.mdelay ms] }

/-! ## The driver -/

/-- The `#ifdef CONFIG_PM_RUNTIME` block at the head of `fimg2d_do_bitblt`:
`fimg2d_clk_on(ctrl); pm_runtime_get_sync(ctrl->dev);`. -/
def power_up (cfg : Config) (s : State) : State :=
  if cfg.CONFIG_PM_RUNTIME then
    record Event.pm_runtime_get_sync (fimg2d_clk_on s)
  else s

/-- The `#ifdef CONFIG_PM_RUNTIME` block at the tail of `fimg2d_do_bitblt`:
`pm_runtime_put_sync(ctrl->dev); fimg2d_clk_off(ctrl);`. -/
def power_down (cfg : Config) (s : State) : State :=
  if cfg.CONFIG_PM_RUNTIME then
    fimg2d_clk_off (record Event.pm_runtime_put_sync s)
  else s

/-- Function `fimg2d_do_bitblt`. -/
def fimg2d_do_bitblt (cfg : Config) (ops : Ops) (s : State) : Int × State :=
  let s := power_up cfg s
  let ret := ops.platform_sysmmu_on s.mem
  let s := record (Event.platform_sysmmu_on ret) s
  if ret < 0 then
    (ret, s)
  else
    let r := ops.blit s.mem
    let s := record (Event.blit r.1) { s with mem := r.2 }
    let s := record Event.platform_sysmmu_off s
    let s := power_down cfg s
    (r.1, s)

/-- Function `fimg2d_worker`: the work item; it drops the result of the blit. -/
def fimg2d_worker (cfg : Config) (ops : Ops) (s : State) : State :=
  (fimg2d_do_bitblt cfg ops s).2

/-- Function `fimg2d_context_wait`. -/
def fimg2d_context_wait (ops : Ops) (ctx : Nat) (s : State) : Int × State :=
  let r := ops.wait_event_timeout s.mem ctx
  let s := record (Event.wait_event_timeout ctx r.1) { s with mem := r.2 }
  if r.1 = 0 then (-ETIME, s) else (0, s)

/-- Function `fimg2d_irq`. -/
def fimg2d_irq (ops : Ops) (s : State) : Int × State :=
  if s.mem.ctrl.clkon ≠ 0 then
    (IRQ_HANDLED, record Event.stop { s with mem := ops.stop s.mem })
  else
    (IRQ_HANDLED, record Event.warn_on s)

/-- Function `fimg2d_request_bitblt`; its entry is logged. -/
def fimg2d_request_bitblt (cfg : Config) (ops : Ops) (ctx : Nat) (s : State) :
    Int × State :=
  let s := record (Event.fimg2d_request_bitblt ctx) s
  if cfg.BLIT_WORKQUE then
    let s := g2d_spin_lock s
    let s := record Event.queue_work s
    let s := g2d_spin_unlock s
    fimg2d_context_wait ops ctx s
  else
    fimg2d_do_bitblt cfg ops s

/-- The call `fimg2d_add_command(ctrl, ctx, arg)`. -/
def fimg2d_add_command (ops : Ops) (ctx : Nat) (arg : Nat) (s : State) : Int × State :=
  let r := ops.fimg2d_add_command s.mem ctx arg
  (r.1, record (Event.fimg2d_add_command ctx r.1) { s with mem := r.2 })

/-- Function `fimg2d_open`; `alloc` is what `kzalloc` returns and `mm` is `current->mm`. -/
def fimg2d_open (cfg : Config) (alloc : Option Nat) (mm : Nat) (f : file) (s : State) :
    Int × file × State :=
  match alloc with
  | none => (-ENOMEM, f, record (Event.kzalloc none) s)
  | some ctx =>
    let s := record (Event.kzalloc (some ctx))
      { s with mem := { s.mem with ctx := Function.update s.mem.ctx ctx ⟨0, 0⟩ } }
    let f := { f with private_data := ctx }
    let s := { s with mem := { s.mem with
      ctx := Function.update s.mem.ctx ctx { s.mem.ctx ctx with mm := mm } } }
    let s := g2d_lock s
    let s := fimg2d_add_context ctx s
    let s := g2d_unlock s
    let s := if cfg.CONFIG_BUSFREQ_OPP then record (Event.dev_lock BUSFREQ_400MHZ) s else s
    let s := if cfg.CONFIG_CPU_FREQ then record (Event.exynos_cpufreq_lock_freq 1) s else s
    (0, f, s)

/-- The drain loop of `fimg2d_release`:
`while (retry--) { if (!atomic_read(&ctx->ncmd)) break; mdelay(POLL_TIMEOUT); }`. -/
def release_wait (env : Interference) (ctx : Nat) : Nat → State → State
  | 0, s => s
  | retry + 1, s =>
    let v := (s.mem.ctx ctx).ncmd
    let s := record (Event.atomic_read_ncmd ctx v) s
    if v = 0 then s else release_wait env ctx retry (mdelay env POLL_TIMEOUT s)

/-- The calls of `fimg2d_release` after its drain loop. -/
def release_teardown (cfg : Config) (ctx : Nat) (s : State) : State :=
  let s := if cfg.CONFIG_CPU_FREQ then record (Event.exynos_cpufreq_lock_freq 0) s else s
  let s := if cfg.CONFIG_BUSFREQ_OPP then record Event.dev_unlock s else s
  let s := fimg2d_del_context ctx s
  let s := record (Event.kfree ctx) s
  g2d_unlock s

/-- Function `fimg2d_release`. -/
def fimg2d_release (cfg : Config) (env : Interference) (f : file) (s : State) :
    Int × State :=
  let ctx := f.private_data
  let s := g2d_lock s
  let s := release_wait env ctx POLL_RETRY s
  (0, release_teardown cfg ctx s)

/-- Function `fimg2d_ioctl`. -/
def fimg2d_ioctl (cfg : Config) (ops : Ops) (f : file) (cmd : IoctlCmd) (arg : UserArg)
    (s : State) : Int × State :=
  let ctx := f.private_data
  match cmd with
  | IoctlCmd.FIMG2D_BITBLT_BLIT =>
    let s := g2d_lock s
    if s.mem.ctrl.drvact ≠ 0 ∨ s.mem.ctrl.suspended ≠ 0 then
      (-EPERM, g2d_unlock s)
    else
      let r := fimg2d_add_command ops ctx arg.addr s
      if r.1 ≠ 0 then
        (r.1, g2d_unlock r.2)
      else
        let r := fimg2d_request_bitblt cfg ops ctx r.2
        if r.1 ≠ 0 then
          (-EBUSY, g2d_unlock r.2)
        else
          (0, g2d_unlock r.2)
  | IoctlCmd.FIMG2D_BITBLT_VERSION =>
    let s := record (Event.copy_to_user ops.hw_ver 0 arg.writable) s
    if arg.writable then (0, s) else (-EFAULT, s)
  | IoctlCmd.FIMG2D_BITBLT_ACTIVATE =>
    let s := record (Event.copy_from_user arg.readable) s
    match arg.readable with
    | none => (-EFAULT, s)
    | some act =>
      let s := g2d_lock s
      let s := atomic_set_drvact act s
      (0, g2d_unlock s)
  | IoctlCmd.other _ =>
    (-EFAULT, record Event.unknown_ioctl s)

/-- Function `fimg2d_setup_controller`: the controller as probe leaves it. -/
def fimg2d_setup_controller : fimg2d_control :=
  { drvact := DRV_ACT, suspended := 0, clkon := 0, busy := 0, nctx := 0,
    cmd_q := [], contexts := [] }

/-- The drain loop of `fimg2d_suspend`:
`while (retry--) { if (fimg2d_queue_is_empty(&ctrl->cmd_q)) break; mdelay(POLL_TIMEOUT); }`. -/
def suspend_wait (env : Interference) : Nat → State → State
  | 0, s => s
  | retry + 1, s =>
    let e := fimg2d_queue_is_empty s.mem.ctrl.cmd_q
    let s := record (Event.fimg2d_queue_is_empty e) s
    if e then s else suspend_wait env retry (mdelay env POLL_TIMEOUT s)

/-- Function `fimg2d_suspend`. -/
def fimg2d_suspend (env : Interference) (s : State) : Int × State :=
  let s := g2d_lock s
  let s := g2d_spin_lock s
  let s := atomic_set_suspended 1 s
  let s := g2d_spin_unlock s
  let s := suspend_wait env POLL_RETRY s
  (0, g2d_unlock s)

/-- Function `fimg2d_resume`. -/
def fimg2d_resume (s : State) : Int × State :=
  let s := g2d_lock s
  let s := g2d_spin_lock s
  let s := atomic_set_suspended 0 s
  let s := g2d_spin_unlock s
  (0, g2d_unlock s)

/-! ## Sequences of driver operations -/

/-- One entry point of the driver together with its inputs. -/
inductive Op where
  | fimg2d_open (alloc : Option Nat) (mm : Nat)
  | fimg2d_release (f : file)
  | fimg2d_ioctl (f : file) (cmd : IoctlCmd) (arg : UserArg)
  | fimg2d_suspend
  | fimg2d_resume
  | fimg2d_irq
  deriving DecidableEq, Repr

/-- Run one operation: its return value and the state it leaves. -/
def step (cfg : Config) (ops : Ops) (env : Interference) (o : Op) (s : State) :
    Int × State :=
  match o with
  | Op.fimg2d_open alloc mm =>
    let r := fimg2d_open cfg alloc mm ⟨0⟩ s
    (r.1, r.2.2)
  | Op.fimg2d_release f => fimg2d_release cfg env f s
  | Op.fimg2d_ioctl f cmd arg => fimg2d_ioctl cfg ops f cmd arg s
  | Op.fimg2d_suspend => fimg2d_suspend env s
  | Op.fimg2d_resume => fimg2d_resume s
  | Op.fimg2d_irq => fimg2d_irq ops s

/-- Run a sequence of operations: the return values in order and the final
state. -/
def run (cfg : Config) (ops : Ops) (env : Interference) : List Op → State → List Int × State
  | [], s => ([], s)
  | o :: os, s =>
    let r := step cfg ops env o s
    let rs := run cfg ops env os r.2
    (r.1 :: rs.1, rs.2)

/-! ## Concrete inputs -/

/-- The state probe leaves: the controller of `fimg2d_setup_controller`, zeroed
contexts, both locks free, an empty log. -/
def boot : State :=
  { mem := { ctrl := fimg2d_setup_controller, ctx := fun _ => ⟨0, 0⟩ },
    drvlock := false, bltlock := false, now := 0, log := [] }

/-- Modelled from the spec: a fault-free stand-in for the code outside
this file, used to run the driver on concrete inputs. `fimg2d_add_command` appends
the command and increments the pending count; `blit` completes the first
queued command and decrements its context's pending count; `stop` clears
`busy`; the address-space enable succeeds. -/
def ideal_ops : Ops :=
  { fimg2d_add_command := fun m ctx arg =>
      (0, { ctrl := { m.ctrl with cmd_q := m.ctrl.cmd_q ++ [⟨ctx, arg⟩] },
            ctx := Function.update m.ctx ctx { m.ctx ctx with ncmd := (m.ctx ctx).ncmd + 1 } })
    blit := fun m =>
      match m.ctrl.cmd_q with
      | [] => (0, m)
      | c :: q =>
        (0, { ctrl := { m.ctrl with cmd_q := q },
              ctx := Function.update m.ctx c.ctx
                { m.ctx c.ctx with ncmd := (m.ctx c.ctx).ncmd - 1 } })
    stop := fun m => { m with ctrl := { m.ctrl with busy := 0 } }
    platform_sysmmu_on := fun _ => 0
    wait_event_timeout := fun m ctx => (if (m.ctx ctx).ncmd = 0 then 1 else 0, m)
    hw_ver := 0x41 }

/-- The stand-in of `ideal_ops` with an address-space enable that fails with
`-EBUSY`. -/
def mmu_fault_ops : Ops :=
  { ideal_ops with platform_sysmmu_on := fun _ => -EBUSY }

/-- No activity from other execution contexts. -/
def quiet : Interference :=
  { cmd_q := fun _ q => q, ncmd := fun _ _ v => v, busy := fun _ v => v,
    clkon := fun _ v => v }

/-- A wedged engine: a command stays queued and pending whatever is there. -/
def wedged : Interference :=
  { cmd_q := fun _ _ => [⟨1, 0⟩], ncmd := fun _ _ _ => 1, busy := fun _ _ => 1,
    clkon := fun _ v => v }

/-- Interference that completes every pending command during the delay that
starts 4 ms into the wait. -/
def settling : Interference :=
  { cmd_q := fun t q => if t < 4 then q else [],
    ncmd := fun t _ v => if t < 4 then v else 0,
    busy := fun t v => if t < 4 then v else 0,
    clkon := fun _ v => v }

/-- The controller as probe leaves it, with one command of context 1 queued
and pending. -/
def boot_pending : State :=
  { boot with mem :=
      { ctrl := { fimg2d_setup_controller with cmd_q := [⟨1, 0⟩], contexts := [1], nctx := 1 },
        ctx := fun p => if p = 1 then ⟨7, 1⟩ else ⟨0, 0⟩ } }

/-- A build without runtime power management: the clock is switched on by
probe and off by remove, not around each blit. -/
def cfg_always_on : Config :=
  { CONFIG_PM_RUNTIME := false, BLIT_WORKQUE := false, CONFIG_BUSFREQ_OPP := true,
    CONFIG_CPU_FREQ := true }

/-- The state probe leaves in a build without `CONFIG_PM_RUNTIME`: its
`#else` branch calls `fimg2d_clk_on(ctrl)`. -/
def boot_always_on : State :=
  fimg2d_clk_on boot

/-- A build with runtime power management and both frequency floors, inline
dispatch. -/
def cfg_pm : Config :=
  { CONFIG_PM_RUNTIME := true, BLIT_WORKQUE := false, CONFIG_BUSFREQ_OPP := true,
    CONFIG_CPU_FREQ := true }

/-! ## Vocabulary of the statements -/

/-- A stretch of log that neither takes nor releases `drvlock`. -/
def drvlock_untouched (d : List Event) : Prop :=
  Event.g2d_lock_drvlock ∉ d ∧ Event.g2d_unlock_drvlock ∉ d

instance (d : List Event) : Decidable (drvlock_untouched d) := by
  unfold drvlock_untouched
  infer_instance

/-- The calls of `power_up`. -/
def power_up_calls (cfg : Config) : List Event :=
  if cfg.CONFIG_PM_RUNTIME then [Event.fimg2d_clk_on, Event.pm_runtime_get_sync] else []

/-- The calls of `power_down`. -/
def power_down_calls (cfg : Config) : List Event :=
  if cfg.CONFIG_PM_RUNTIME then [Event.pm_runtime_put_sync, Event.fimg2d_clk_off] else []

/-- How often a stretch of log takes `drvlock`. -/
def acquired (d : List Event) : Nat :=
  d.count Event.g2d_lock_drvlock

/-- How often a stretch of log releases `drvlock`. -/
def released (d : List Event) : Nat :=
  d.count Event.g2d_unlock_drvlock

/-- The event is a call of `fimg2d_add_command` or of `fimg2d_request_bitblt`. -/
def is_admission_or_dispatch : Event → Bool
  | Event.fimg2d_add_command _ _ => true
  | Event.fimg2d_request_bitblt _ => true
  | _ => false

/-- The calls of drain-loop rounds of `fimg2d_release` that found the pending
count non-zero: each reads it (the values are `vals`) and then delays. -/
def busy_polls (ctx : Nat) : List Int → List Event
  | [] => []
  | v :: vs => Event.atomic_read_ncmd ctx v :: Event.mdelay POLL_TIMEOUT :: busy_polls ctx vs

/-- The calls of `n` drain-loop rounds of `fimg2d_suspend` that found the
queue non-empty: each checks it and then delays. -/
def busy_checks : Nat → List Event
  | 0 => []
  | n + 1 => Event.fimg2d_queue_is_empty false :: Event.mdelay POLL_TIMEOUT :: busy_checks n

/-- The state after `k` delays of `POLL_TIMEOUT` in a row: what the other
execution contexts have made of the unlocked fields by the poll number `k`
(counted from 0) of a drain loop entered in state `s`. -/
def waited (env : Interference) (k : Nat) (s : State) : State :=
  (mdelay env POLL_TIMEOUT)^[k] s

/-- The pending count of `ctx` in memory at poll number `k` of a drain loop
entered in state `s`. -/
def ncmd_at_poll (env : Interference) (ctx : Nat) (s : State) (k : Nat) : Int :=
  ((waited env k s).mem.ctx ctx).ncmd

/-- The command queue in memory at check number `k` of a drain loop entered in
state `s`. -/
def queue_at_check (env : Interference) (s : State) (k : Nat) : List fimg2d_bltcmd :=
  (waited env k s).mem.ctrl.cmd_q

/-- Two states agree on the time and on the fields other execution contexts
write: the queue, `busy`, `clkon` and the contexts. -/
def same_unlocked (a b : State) : Prop :=
  a.now = b.now ∧ a.mem.ctrl.cmd_q = b.mem.ctrl.cmd_q ∧ a.mem.ctrl.busy = b.mem.ctrl.busy ∧
  a.mem.ctrl.clkon = b.mem.ctrl.clkon ∧ a.mem.ctx = b.mem.ctx

/-- The calls of `release_teardown`. -/
def teardown_calls (cfg : Config) (ctx : Nat) : List Event :=
  (if cfg.CONFIG_CPU_FREQ then [Event.exynos_cpufreq_lock_freq 0] else []) ++
  (if cfg.CONFIG_BUSFREQ_OPP then [Event.dev_unlock] else []) ++
  [Event.fimg2d_del_context ctx, Event.kfree ctx, Event.g2d_unlock_drvlock]

/-- What the drain loops leave alone: the fields written only under `drvlock`
and the two locks. -/
def same_locked_fields (s t : State) : Prop :=
  t.mem.ctrl.drvact = s.mem.ctrl.drvact ∧ t.mem.ctrl.suspended = s.mem.ctrl.suspended ∧
  t.mem.ctrl.nctx = s.mem.ctrl.nctx ∧ t.mem.ctrl.contexts = s.mem.ctrl.contexts ∧
  t.drvlock = s.drvlock ∧ t.bltlock = s.bltlock

instance (s t : State) : Decidable (same_locked_fields s t) := by
  unfold same_locked_fields
  infer_instance

/-- The pair `fimg2d_suspend` then `fimg2d_resume`. -/
def suspend_resume (env : Interference) (s : State) : State :=
  (fimg2d_resume (fimg2d_suspend env s).2).2

/-- Two states agree on everything but the log: memory, both locks, the time
spent in delays. -/
def same_but_log (a b : State) : Prop :=
  a.mem = b.mem ∧ a.drvlock = b.drvlock ∧ a.bltlock = b.bltlock ∧ a.now = b.now

/-- The operation is a `FIMG2D_BITBLT_ACTIVATE` request that delivers `DRV_ACT`. -/
def reactivates : Op → Bool
  | Op.fimg2d_ioctl _ IoctlCmd.FIMG2D_BITBLT_ACTIVATE a => a.readable == some DRV_ACT
  | _ => false

/-! ## What each function logs -/

/-- The log of `power_up`. -/
theorem power_up_log (cfg : Config) (s : State) :
    (power_up cfg s).log = s.log ++ power_up_calls cfg := by
  cases hc : cfg.CONFIG_PM_RUNTIME <;>
    simp [power_up, power_up_calls, hc, record, fimg2d_clk_on, set_ctrl]

/-- The log of `power_down`. -/
theorem power_down_log (cfg : Config) (s : State) :
    (power_down cfg s).log = s.log ++ power_down_calls cfg := by
  cases hc : cfg.CONFIG_PM_RUNTIME <;>
    simp [power_down, power_down_calls, hc, record, fimg2d_clk_off, set_ctrl]

/-- The power-up calls leave `drvlock` alone. -/
theorem power_up_calls_untouched (cfg : Config) : drvlock_untouched (power_up_calls cfg) := by
  cases hc : cfg.CONFIG_PM_RUNTIME <;> simp [drvlock_untouched, power_up_calls, hc]

/-- The power-down calls leave `drvlock` alone. -/
theorem power_down_calls_untouched (cfg : Config) :
    drvlock_untouched (power_down_calls cfg) := by
  cases hc : cfg.CONFIG_PM_RUNTIME <;> simp [drvlock_untouched, power_down_calls, hc]

/-- The early return of `fimg2d_do_bitblt` when `platform_sysmmu_on` fails. -/
theorem do_bitblt_fail (cfg : Config) (ops : Ops) (s : State)
    (h : ops.platform_sysmmu_on (power_up cfg s).mem < 0) :
    fimg2d_do_bitblt cfg ops s =
      (ops.platform_sysmmu_on (power_up cfg s).mem,
        record (Event.platform_sysmmu_on (ops.platform_sysmmu_on (power_up cfg s).mem))
          (power_up cfg s)) := by
  have h2 : ops.platform_sysmmu_on
      (record (Event.platform_sysmmu_on (ops.platform_sysmmu_on (power_up cfg s).mem))
        (power_up cfg s)).mem < 0 := h
  simp only [fimg2d_do_bitblt, if_pos h]

/-- The full path of `fimg2d_do_bitblt` when `platform_sysmmu_on` succeeds. -/
theorem do_bitblt_ok (cfg : Config) (ops : Ops) (s : State)
    (h : ¬ ops.platform_sysmmu_on (power_up cfg s).mem < 0) :
    fimg2d_do_bitblt cfg ops s =
      ((ops.blit (power_up cfg s).mem).1,
        power_down cfg (record Event.platform_sysmmu_off
          (record (Event.blit (ops.blit (power_up cfg s).mem).1)
            { record (Event.platform_sysmmu_on (ops.platform_sysmmu_on (power_up cfg s).mem))
                (power_up cfg s) with mem := (ops.blit (power_up cfg s).mem).2 }))) := by
  simp only [fimg2d_do_bitblt, if_neg h]
  rfl

/-- Dispatch only appends to the log and leaves `drvlock` alone. -/
theorem do_bitblt_log (cfg : Config) (ops : Ops) (s : State) :
    ∃ d, (fimg2d_do_bitblt cfg ops s).2.log = s.log ++ d ∧ drvlock_untouched d := by
  have hu := power_up_calls_untouched cfg
  have hd := power_down_calls_untouched cfg
  by_cases h : ops.platform_sysmmu_on (power_up cfg s).mem < 0
  · refine ⟨power_up_calls cfg ++
      [Event.platform_sysmmu_on (ops.platform_sysmmu_on (power_up cfg s).mem)], ?_, ?_⟩
    · simp [do_bitblt_fail cfg ops s h, record, power_up_log]
    · simp only [drvlock_untouched] at hu ⊢
      simp [hu.1, hu.2]
  · refine ⟨power_up_calls cfg ++
      [Event.platform_sysmmu_on (ops.platform_sysmmu_on (power_up cfg s).mem),
       Event.blit (ops.blit (power_up cfg s).mem).1, Event.platform_sysmmu_off] ++
      power_down_calls cfg, ?_, ?_⟩
    · simp [do_bitblt_ok cfg ops s h, record, power_up_log, power_down_log]
    · simp only [drvlock_untouched] at hu hd ⊢
      simp [hu.1, hu.2, hd.1, hd.2]

/-- The log of `fimg2d_request_bitblt` starts with its entry and leaves `drvlock`
alone, in both dispatch modes. -/
theorem request_bitblt_log (cfg : Config) (ops : Ops) (ctx : Nat) (s : State) :
    ∃ d, (fimg2d_request_bitblt cfg ops ctx s).2.log =
        s.log ++ Event.fimg2d_request_bitblt ctx :: d ∧ drvlock_untouched d := by
  cases hw : cfg.BLIT_WORKQUE
  · obtain ⟨d, hd, hu⟩ := do_bitblt_log cfg ops (record (Event.fimg2d_request_bitblt ctx) s)
    refine ⟨d, ?_, hu⟩
    simp only [fimg2d_request_bitblt, hw, Bool.false_eq_true, if_false, hd]
    simp [record]
  · refine ⟨[Event.g2d_spin_lock_bltlock, Event.queue_work, Event.g2d_spin_unlock_bltlock,
      Event.wait_event_timeout ctx (ops.wait_event_timeout s.mem ctx).1], ?_, ?_⟩
    · simp only [fimg2d_request_bitblt, hw, fimg2d_context_wait, if_true]
      by_cases hz : (ops.wait_event_timeout s.mem ctx).1 = 0 <;>
        simp [record, g2d_spin_lock, g2d_spin_unlock, hz]
    · simp [drvlock_untouched]

/-- A stretch that leaves `drvlock` alone has no acquisition and no release. -/
theorem untouched_counts (d : List Event) (h : drvlock_untouched d) :
    acquired d = 0 ∧ released d = 0 := by
  simp only [acquired, released, List.count_eq_zero]
  exact h

/-- A leading part of a stretch that leaves `drvlock` alone does so too. -/
theorem untouched_of_append (a b : List Event) (h : drvlock_untouched (a ++ b)) :
    drvlock_untouched a := by
  simp only [drvlock_untouched, List.mem_append, not_or] at h ⊢
  exact ⟨h.1.1, h.2.1⟩

/-- In a critical section `lock, mid, unlock` whose middle leaves `drvlock`
alone, every call other than the lock and the unlock happens with the lock
taken once and not released. -/
theorem critical_section_held (mid pre post : List Event) (e : Event)
    (hmid : drvlock_untouched mid)
    (hsplit : Event.g2d_lock_drvlock :: (mid ++ [Event.g2d_unlock_drvlock]) = pre ++ e :: post)
    (hl : e ≠ Event.g2d_lock_drvlock) (hu : e ≠ Event.g2d_unlock_drvlock) :
    acquired pre = 1 ∧ released pre = 0 := by
  cases pre with
  | nil =>
    simp only [List.nil_append, List.cons.injEq] at hsplit
    exact absurd hsplit.1.symm hl
  | cons x pre =>
    simp only [List.cons_append, List.cons.injEq] at hsplit
    obtain ⟨hx, hrest⟩ := hsplit
    subst hx
    rw [List.append_eq_append_iff] at hrest
    rcases hrest with ⟨a, _, hb⟩ | ⟨c, hc, _⟩
    · cases a with
      | nil =>
        simp only [List.nil_append, List.cons.injEq] at hb
        exact absurd hb.1.symm hu
      | cons y a =>
        have := congrArg List.length hb
        simp at this
    · have hpre := untouched_counts pre (untouched_of_append pre c (hc ▸ hmid))
      simp only [acquired, released] at hpre ⊢
      simp [hpre.1, hpre.2]

/-- The rejected path of `FIMG2D_BITBLT_BLIT`. -/
theorem ioctl_blit_closed (cfg : Config) (ops : Ops) (f : file) (arg : UserArg) (s : State)
    (h : s.mem.ctrl.drvact ≠ 0 ∨ s.mem.ctrl.suspended ≠ 0) :
    fimg2d_ioctl cfg ops f IoctlCmd.FIMG2D_BITBLT_BLIT arg s =
      (-EPERM, g2d_unlock (g2d_lock s)) := by
  have hg : (g2d_lock s).mem.ctrl.drvact ≠ 0 ∨ (g2d_lock s).mem.ctrl.suspended ≠ 0 := h
  simp only [fimg2d_ioctl, if_pos hg]

/-- The log of an admitted `FIMG2D_BITBLT_BLIT`: lock, `fimg2d_add_command`, calls
that leave `drvlock` alone, unlock. -/
theorem ioctl_blit_open_log (cfg : Config) (ops : Ops) (f : file) (arg : UserArg) (s : State)
    (h : s.mem.ctrl.drvact = 0 ∧ s.mem.ctrl.suspended = 0) :
    ∃ d, (fimg2d_ioctl cfg ops f IoctlCmd.FIMG2D_BITBLT_BLIT arg s).2.log =
        s.log ++ Event.g2d_lock_drvlock ::
          ((Event.fimg2d_add_command f.private_data
              (ops.fimg2d_add_command s.mem f.private_data arg.addr).1 :: d) ++
            [Event.g2d_unlock_drvlock]) ∧
      drvlock_untouched d ∧
      (fimg2d_ioctl cfg ops f IoctlCmd.FIMG2D_BITBLT_BLIT arg s).2.drvlock = false := by
  have hg : ¬ ((g2d_lock s).mem.ctrl.drvact ≠ 0 ∨ (g2d_lock s).mem.ctrl.suspended ≠ 0) := by
    simp [g2d_lock, record, h.1, h.2]
  simp only [fimg2d_ioctl, if_neg hg]
  by_cases ha : (fimg2d_add_command ops f.private_data arg.addr (g2d_lock s)).1 ≠ 0
  · refine ⟨[], ?_, by simp [drvlock_untouched], ?_⟩
    · simp only [if_pos ha]
      simp [g2d_unlock, record, fimg2d_add_command, g2d_lock]
    · simp only [if_pos ha]
      simp [g2d_unlock, record]
  · simp only [if_neg ha]
    obtain ⟨d, hd, hu⟩ := request_bitblt_log cfg ops f.private_data
      (fimg2d_add_command ops f.private_data arg.addr (g2d_lock s)).2
    refine ⟨Event.fimg2d_request_bitblt f.private_data :: d, ?_, ?_, ?_⟩
    · by_cases hr : (fimg2d_request_bitblt cfg ops f.private_data
          (fimg2d_add_command ops f.private_data arg.addr (g2d_lock s)).2).1 ≠ 0
      · simp only [if_pos hr]
        simp [g2d_unlock, record, hd]
        simp [fimg2d_add_command, record, g2d_lock]
      · simp only [if_neg hr]
        simp [g2d_unlock, record, hd]
        simp [fimg2d_add_command, record, g2d_lock]
    · simp only [drvlock_untouched] at hu ⊢
      simp [hu.1, hu.2]
    · by_cases hr : (fimg2d_request_bitblt cfg ops f.private_data
          (fimg2d_add_command ops f.private_data arg.addr (g2d_lock s)).2).1 ≠ 0
      · simp only [if_pos hr]
        simp [g2d_unlock, record]
      · simp only [if_neg hr]
        simp [g2d_unlock, record]

/-- The drain loop of `fimg2d_release` from any retry budget. -/
theorem release_wait_spec (env : Interference) (ctx : Nat) (retry : Nat) (s : State) :
    ∃ vals : List Int, vals.length ≤ retry ∧ (∀ v ∈ vals, v ≠ 0) ∧
      (release_wait env ctx retry s).log =
        s.log ++ busy_polls ctx vals ++
          (if vals.length < retry then [Event.atomic_read_ncmd ctx 0] else []) ∧
      (release_wait env ctx retry s).now = s.now + POLL_TIMEOUT * vals.length ∧
      same_locked_fields s (release_wait env ctx retry s) := by
  induction retry generalizing s with
  | zero => exact ⟨[], by simp [release_wait, busy_polls, same_locked_fields]⟩
  | succ r ih =>
    by_cases hv : (s.mem.ctx ctx).ncmd = 0
    · refine ⟨[], ?_⟩
      simp [release_wait, hv, record, busy_polls, same_locked_fields]
    · obtain ⟨vals, hlen, hnz, hlog, hnow, hsame⟩ :=
        ih (mdelay env POLL_TIMEOUT (record (Event.atomic_read_ncmd ctx (s.mem.ctx ctx).ncmd) s))
      refine ⟨(s.mem.ctx ctx).ncmd :: vals, ?_, ?_, ?_, ?_, ?_⟩
      · simpa using hlen
      · intro v hmem
        rcases List.mem_cons.mp hmem with rfl | hmem
        · exact hv
        · exact hnz v hmem
      · simp only [release_wait, record, if_neg hv] at hlog ⊢
        rw [hlog]
        simp [mdelay, busy_polls]
      · simp only [release_wait, record, if_neg hv] at hnow ⊢
        rw [hnow]
        simp [mdelay]
        ring
      · simp only [release_wait, record, if_neg hv, same_locked_fields] at hsame ⊢
        simpa [mdelay] using hsame

/-- The drain loop of `fimg2d_suspend` from any retry budget. -/
theorem suspend_wait_spec (env : Interference) (retry : Nat) (s : State) :
    ∃ n : Nat, n ≤ retry ∧
      (suspend_wait env retry s).log =
        s.log ++ busy_checks n ++
          (if n < retry then [Event.fimg2d_queue_is_empty true] else []) ∧
      (suspend_wait env retry s).now = s.now + POLL_TIMEOUT * n ∧
      same_locked_fields s (suspend_wait env retry s) := by
  induction retry generalizing s with
  | zero => exact ⟨0, by simp [suspend_wait, busy_checks, same_locked_fields]⟩
  | succ r ih =>
    cases hq : fimg2d_queue_is_empty s.mem.ctrl.cmd_q
    · obtain ⟨n, hlen, hlog, hnow, hsame⟩ :=
        ih (mdelay env POLL_TIMEOUT (record (Event.fimg2d_queue_is_empty false) s))
      refine ⟨n + 1, by omega, ?_, ?_, ?_⟩
      · simp only [suspend_wait, record, hq] at hlog ⊢
        simp only [Bool.false_eq_true, if_false]
        rw [hlog]
        simp [mdelay, busy_checks]
      · simp only [suspend_wait, record, hq] at hnow ⊢
        simp only [Bool.false_eq_true, if_false]
        rw [hnow]
        simp [mdelay]
        ring
      · simp only [suspend_wait, record, hq, same_locked_fields] at hsame ⊢
        simp only [Bool.false_eq_true, if_false]
        simpa [mdelay] using hsame
    · refine ⟨0, ?_⟩
      simp [suspend_wait, hq, record, busy_checks, same_locked_fields]

/-- A delay reads only the time and the unlocked fields. -/
theorem mdelay_same_unlocked (env : Interference) (ms : Nat) (a b : State)
    (h : same_unlocked a b) : same_unlocked (mdelay env ms a) (mdelay env ms b) := by
  obtain ⟨h1, h2, h3, h4, h5⟩ := h
  simp [same_unlocked, mdelay, h1, h2, h3, h4, h5]

/-- Delays in a row read only the time and the unlocked fields. -/
theorem waited_same_unlocked (env : Interference) (k : Nat) (a b : State)
    (h : same_unlocked a b) : same_unlocked (waited env k a) (waited env k b) := by
  induction k generalizing a b with
  | zero => exact h
  | succ k ih =>
    simp only [waited, Function.iterate_succ_apply] at ih ⊢
    exact ih _ _ (mdelay_same_unlocked env POLL_TIMEOUT a b h)

/-- Each delay takes `POLL_TIMEOUT` milliseconds. -/
theorem waited_now (env : Interference) (k : Nat) (s : State) :
    (waited env k s).now = s.now + 2 * k := by
  induction k with
  | zero => rfl
  | succ k ih =>
    simp only [waited, Function.iterate_succ_apply'] at ih ⊢
    simp only [mdelay, ih]
    simp only [POLL_TIMEOUT]
    ring

/-- The pending count at the next poll is what the interference made of the
one at this poll. -/
theorem ncmd_at_poll_succ (env : Interference) (ctx : Nat) (s : State) (k : Nat) :
    ncmd_at_poll env ctx s (k + 1) =
      env.ncmd (s.now + 2 * k) ctx (ncmd_at_poll env ctx s k) := by
  have hn := waited_now env k s
  simp only [ncmd_at_poll, waited, Function.iterate_succ_apply'] at hn ⊢
  simp [mdelay, hn]

/-- The queue at the next check is what the interference made of the one at
this check. -/
theorem queue_at_check_succ (env : Interference) (s : State) (k : Nat) :
    queue_at_check env s (k + 1) = env.cmd_q (s.now + 2 * k) (queue_at_check env s k) := by
  have hn := waited_now env k s
  simp only [queue_at_check, waited, Function.iterate_succ_apply'] at hn ⊢
  simp [mdelay, hn]

/-- The drain loop of `fimg2d_release` from any retry budget: it runs busy
rounds up to the first poll at which the pending count in memory is zero, or
until the budget is spent. -/
theorem release_wait_polls (env : Interference) (ctx : Nat) (retry : Nat) (s : State) :
    ∃ n : Nat, n ≤ retry ∧
      (∀ k, k < n → ncmd_at_poll env ctx s k ≠ 0) ∧
      (n < retry → ncmd_at_poll env ctx s n = 0) ∧
      (release_wait env ctx retry s).log =
        s.log ++ busy_polls ctx ((List.range n).map (ncmd_at_poll env ctx s)) ++
          (if n < retry then [Event.atomic_read_ncmd ctx 0] else []) ∧
      same_unlocked (release_wait env ctx retry s) (waited env n s) := by
  induction retry generalizing s with
  | zero =>
    refine ⟨0, le_refl 0, ?_, ?_, ?_, ?_⟩
    · intro k hk
      omega
    · intro h
      omega
    · simp [release_wait, busy_polls]
    · simp [release_wait, waited, same_unlocked]
  | succ r ih =>
    by_cases hv : (s.mem.ctx ctx).ncmd = 0
    · refine ⟨0, Nat.zero_le _, ?_, ?_, ?_, ?_⟩
      · intro k hk
        omega
      · intro _
        exact hv
      · simp [release_wait, hv, record, busy_polls]
      · simp [release_wait, hv, record, waited, same_unlocked]
    · obtain ⟨n, hlen, hbusy, hzero, hlog, hsame⟩ :=
        ih (mdelay env POLL_TIMEOUT (record (Event.atomic_read_ncmd ctx (s.mem.ctx ctx).ncmd) s))
      have hrec : same_unlocked
          (mdelay env POLL_TIMEOUT (record (Event.atomic_read_ncmd ctx (s.mem.ctx ctx).ncmd) s))
          (mdelay env POLL_TIMEOUT s) :=
        mdelay_same_unlocked env POLL_TIMEOUT _ _ (by simp [same_unlocked, record])
      have hshift : ∀ k, ncmd_at_poll env ctx
          (mdelay env POLL_TIMEOUT (record (Event.atomic_read_ncmd ctx (s.mem.ctx ctx).ncmd) s))
          k = ncmd_at_poll env ctx s (k + 1) := by
        intro k
        have h := waited_same_unlocked env k _ _ hrec
        simp only [ncmd_at_poll, waited, Function.iterate_succ_apply] at h ⊢
        rw [h.2.2.2.2]
      refine ⟨n + 1, by omega, ?_, ?_, ?_, ?_⟩
      · intro k hk
        cases k with
        | zero => exact hv
        | succ j =>
          rw [← hshift j]
          exact hbusy j (by omega)
      · intro hlt
        rw [← hshift n]
        exact hzero (by omega)
      · simp only [release_wait, record, if_neg hv] at hlog ⊢
        rw [hlog, List.range_succ_eq_map]
        have hfun : (fun k => ncmd_at_poll env ctx
            (mdelay env POLL_TIMEOUT
              { mem := s.mem, drvlock := s.drvlock, bltlock := s.bltlock, now := s.now,
                log := s.log ++ [Event.atomic_read_ncmd ctx (s.mem.ctx ctx).ncmd] }) k) =
            (ncmd_at_poll env ctx s) ∘ Nat.succ := by
          funext k
          exact hshift k
        simp only [List.map_cons, List.map_map, busy_polls]
        rw [← hfun]
        have h0 : ncmd_at_poll env ctx s 0 = (s.mem.ctx ctx).ncmd := rfl
        simp [mdelay, h0]
      · simp only [release_wait, record, if_neg hv] at hsame ⊢
        have h := waited_same_unlocked env n _ _ hrec
        simp only [record] at h
        have hw : waited env (n + 1) s = waited env n (mdelay env POLL_TIMEOUT s) := by
          simp only [waited, Function.iterate_succ_apply]
        rw [hw]
        obtain ⟨a1, a2, a3, a4, a5⟩ := hsame
        obtain ⟨b1, b2, b3, b4, b5⟩ := h
        exact ⟨a1.trans b1, a2.trans b2, a3.trans b3, a4.trans b4, a5.trans b5⟩

/-- The drain loop of `fimg2d_suspend` from any retry budget: it runs busy
rounds up to the first check at which the queue in memory is empty, or until
the budget is spent. -/
theorem suspend_wait_checks (env : Interference) (retry : Nat) (s : State) :
    ∃ n : Nat, n ≤ retry ∧
      (∀ k, k < n → fimg2d_queue_is_empty (queue_at_check env s k) = false) ∧
      (n < retry → fimg2d_queue_is_empty (queue_at_check env s n) = true) ∧
      (suspend_wait env retry s).log =
        s.log ++ busy_checks n ++
          (if n < retry then [Event.fimg2d_queue_is_empty true] else []) ∧
      same_unlocked (suspend_wait env retry s) (waited env n s) := by
  induction retry generalizing s with
  | zero =>
    refine ⟨0, le_refl 0, ?_, ?_, ?_, ?_⟩
    · intro k hk
      omega
    · intro h
      omega
    · simp [suspend_wait, busy_checks]
    · simp [suspend_wait, waited, same_unlocked]
  | succ r ih =>
    cases hq : fimg2d_queue_is_empty s.mem.ctrl.cmd_q
    · obtain ⟨n, hlen, hbusy, hempty, hlog, hsame⟩ :=
        ih (mdelay env POLL_TIMEOUT (record (Event.fimg2d_queue_is_empty false) s))
      have hrec : same_unlocked
          (mdelay env POLL_TIMEOUT (record (Event.fimg2d_queue_is_empty false) s))
          (mdelay env POLL_TIMEOUT s) :=
        mdelay_same_unlocked env POLL_TIMEOUT _ _ (by simp [same_unlocked, record])
      have hshift : ∀ k, queue_at_check env
          (mdelay env POLL_TIMEOUT (record (Event.fimg2d_queue_is_empty false) s)) k =
          queue_at_check env s (k + 1) := by
        intro k
        have h := waited_same_unlocked env k _ _ hrec
        simp only [queue_at_check, waited, Function.iterate_succ_apply] at h ⊢
        exact h.2.1
      refine ⟨n + 1, by omega, ?_, ?_, ?_, ?_⟩
      · intro k hk
        cases k with
        | zero => exact hq
        | succ j =>
          rw [← hshift j]
          exact hbusy j (by omega)
      · intro hlt
        rw [← hshift n]
        exact hempty (by omega)
      · simp only [suspend_wait, record, hq] at hlog ⊢
        simp only [Bool.false_eq_true, if_false]
        rw [hlog]
        simp [mdelay, busy_checks]
      · simp only [suspend_wait, record, hq] at hsame ⊢
        simp only [Bool.false_eq_true, if_false]
        have h := waited_same_unlocked env n _ _ hrec
        simp only [record] at h
        have hw : waited env (n + 1) s = waited env n (mdelay env POLL_TIMEOUT s) := by
          simp only [waited, Function.iterate_succ_apply]
        rw [hw]
        obtain ⟨a1, a2, a3, a4, a5⟩ := hsame
        obtain ⟨b1, b2, b3, b4, b5⟩ := h
        exact ⟨a1.trans b1, a2.trans b2, a3.trans b3, a4.trans b4, a5.trans b5⟩
    · refine ⟨0, Nat.zero_le _, ?_, ?_, ?_, ?_⟩
      · intro k hk
        omega
      · intro _
        exact hq
      · simp [suspend_wait, hq, record, busy_checks]
      · simp [suspend_wait, hq, record, waited, same_unlocked]

/-- The pending counts at the polls depend only on the time and the unlocked
fields at loop entry. -/
theorem ncmd_at_poll_congr (env : Interference) (ctx : Nat) (a b : State)
    (h : same_unlocked a b) (k : Nat) :
    ncmd_at_poll env ctx a k = ncmd_at_poll env ctx b k := by
  have hk := waited_same_unlocked env k a b h
  simp only [ncmd_at_poll]
  rw [hk.2.2.2.2]

/-- The queues at the checks depend only on the time and the unlocked fields
at loop entry. -/
theorem queue_at_check_congr (env : Interference) (a b : State)
    (h : same_unlocked a b) (k : Nat) :
    queue_at_check env a k = queue_at_check env b k :=
  (waited_same_unlocked env k a b h).2.1

/-- The drain loop of `fimg2d_release` on a pending count of zero: one read. -/
theorem release_wait_idle (env : Interference) (ctx : Nat) (r : Nat) (s : State)
    (h : (s.mem.ctx ctx).ncmd = 0) :
    release_wait env ctx (r + 1) s = record (Event.atomic_read_ncmd ctx 0) s := by
  simp [release_wait, h]

/-- The drain loop of `fimg2d_suspend` on an empty queue: one check. -/
theorem suspend_wait_idle (env : Interference) (r : Nat) (s : State)
    (h : s.mem.ctrl.cmd_q = []) :
    suspend_wait env (r + 1) s = record (Event.fimg2d_queue_is_empty true) s := by
  simp [suspend_wait, h, fimg2d_queue_is_empty]

/-- The log of `release_teardown`. -/
theorem release_teardown_log (cfg : Config) (ctx : Nat) (s : State) :
    (release_teardown cfg ctx s).log = s.log ++ teardown_calls cfg ctx := by
  cases h1 : cfg.CONFIG_CPU_FREQ <;> cases h2 : cfg.CONFIG_BUSFREQ_OPP <;>
    simp [release_teardown, teardown_calls, h1, h2, record, g2d_unlock, fimg2d_del_context,
      set_ctrl]

/-- The stores of `release_teardown`. -/
theorem release_teardown_effect (cfg : Config) (ctx : Nat) (s : State) :
    (release_teardown cfg ctx s).mem.ctrl =
        { s.mem.ctrl with contexts := s.mem.ctrl.contexts.filter (fun p => p != ctx),
                          nctx := s.mem.ctrl.nctx - 1 } ∧
      (release_teardown cfg ctx s).mem.ctx = s.mem.ctx ∧
      (release_teardown cfg ctx s).drvlock = false ∧
      (release_teardown cfg ctx s).bltlock = s.bltlock ∧
      (release_teardown cfg ctx s).now = s.now := by
  cases h1 : cfg.CONFIG_CPU_FREQ <;> cases h2 : cfg.CONFIG_BUSFREQ_OPP <;>
    simp [release_teardown, h1, h2, record, g2d_unlock, fimg2d_del_context, set_ctrl]

/-- The effect of `fimg2d_suspend` on an empty queue. -/
theorem suspend_idle (env : Interference) (s : State) (hq : s.mem.ctrl.cmd_q = []) :
    (fimg2d_suspend env s).2.mem = { s.mem with ctrl := { s.mem.ctrl with suspended := 1 } } ∧
    (fimg2d_suspend env s).2.drvlock = false ∧
    (fimg2d_suspend env s).2.bltlock = false ∧
    (fimg2d_suspend env s).2.now = s.now := by
  have hw : suspend_wait env POLL_RETRY
      (g2d_spin_unlock (atomic_set_suspended 1 (g2d_spin_lock (g2d_lock s)))) =
      record (Event.fimg2d_queue_is_empty true)
        (g2d_spin_unlock (atomic_set_suspended 1 (g2d_spin_lock (g2d_lock s)))) :=
    suspend_wait_idle env 999 _ hq
  simp only [fimg2d_suspend, hw]
  simp [g2d_unlock, g2d_lock, g2d_spin_lock, g2d_spin_unlock, atomic_set_suspended, set_ctrl,
    record]

/-- The effect of `fimg2d_resume`. -/
theorem resume_effect (s : State) :
    (fimg2d_resume s).2.mem = { s.mem with ctrl := { s.mem.ctrl with suspended := 0 } } ∧
    (fimg2d_resume s).2.drvlock = false ∧
    (fimg2d_resume s).2.bltlock = false ∧
    (fimg2d_resume s).2.now = s.now := by
  simp [fimg2d_resume, g2d_unlock, g2d_lock, g2d_spin_lock, g2d_spin_unlock,
    atomic_set_suspended, set_ctrl, record]

/-- The effect of the pair on an empty queue. -/
theorem suspend_resume_idle (env : Interference) (s : State) (hq : s.mem.ctrl.cmd_q = []) :
    (suspend_resume env s).mem = { s.mem with ctrl := { s.mem.ctrl with suspended := 0 } } ∧
    (suspend_resume env s).drvlock = false ∧
    (suspend_resume env s).bltlock = false ∧
    (suspend_resume env s).now = s.now := by
  obtain ⟨h1, _, _, h4⟩ := suspend_idle env s hq
  obtain ⟨r1, r2, r3, r4⟩ := resume_effect (fimg2d_suspend env s).2
  refine ⟨?_, r2, r3, ?_⟩
  · simp only [suspend_resume, r1, h1]
  · simp only [suspend_resume, r4, h4]

/-- Iterating the pair on an empty queue. -/
theorem suspend_resume_iterate (env : Interference) (s : State) (hq : s.mem.ctrl.cmd_q = [])
    (n : Nat) :
    same_but_log ((suspend_resume env)^[n + 1] s) (suspend_resume env s) := by
  induction n with
  | zero => simp [same_but_log]
  | succ k ih =>
    rw [Function.iterate_succ_apply']
    obtain ⟨i1, _, _, i4⟩ := ih
    obtain ⟨b1, b2, b3, b4⟩ := suspend_resume_idle env s hq
    have hq2 : ((suspend_resume env)^[k + 1] s).mem.ctrl.cmd_q = [] := by
      rw [i1, b1]
      exact hq
    obtain ⟨c1, c2, c3, c4⟩ := suspend_resume_idle env _ hq2
    refine ⟨?_, ?_, ?_, ?_⟩
    · rw [c1, i1, b1]
    · rw [c2, b2]
    · rw [c3, b3]
    · rw [c4, i4]

/-- The function `fimg2d_release` does not write `drvact`. -/
theorem release_keeps_drvact (cfg : Config) (env : Interference) (f : file) (s : State) :
    (fimg2d_release cfg env f s).2.mem.ctrl.drvact = s.mem.ctrl.drvact := by
  obtain ⟨_, _, _, _, _, hsame⟩ := release_wait_spec env f.private_data POLL_RETRY (g2d_lock s)
  have hT := release_teardown_effect cfg f.private_data
    (release_wait env f.private_data POLL_RETRY (g2d_lock s))
  simp only [fimg2d_release, hT.1]
  exact hsame.1

/-- The function `fimg2d_suspend` does not write `drvact`. -/
theorem suspend_keeps_drvact (env : Interference) (s : State) :
    (fimg2d_suspend env s).2.mem.ctrl.drvact = s.mem.ctrl.drvact := by
  obtain ⟨_, _, _, _, hsame⟩ := suspend_wait_spec env POLL_RETRY
    (g2d_spin_unlock (atomic_set_suspended 1 (g2d_spin_lock (g2d_lock s))))
  simp only [fimg2d_suspend, g2d_unlock, record]
  exact hsame.1

/-- The function `fimg2d_open` does not write `drvact`. -/
theorem open_keeps_drvact (cfg : Config) (alloc : Option Nat) (mm : Nat) (f : file)
    (s : State) :
    (fimg2d_open cfg alloc mm f s).2.2.mem.ctrl.drvact = s.mem.ctrl.drvact := by
  cases alloc with
  | none => simp [fimg2d_open, record]
  | some p =>
    cases h1 : cfg.CONFIG_CPU_FREQ <;> cases h2 : cfg.CONFIG_BUSFREQ_OPP <;>
      simp [fimg2d_open, h1, h2, record, g2d_lock, g2d_unlock, fimg2d_add_context, set_ctrl]

/-- No operation but a reactivating request makes a non-zero `drvact` zero. -/
theorem step_keeps_deactivated (cfg : Config) (ops : Ops) (env : Interference)
    (hstop : ∀ m, (ops.stop m).ctrl.drvact = m.ctrl.drvact) (o : Op) (s : State)
    (hd : s.mem.ctrl.drvact ≠ 0) (ho : reactivates o = false) :
    (step cfg ops env o s).2.mem.ctrl.drvact ≠ 0 := by
  cases o with
  | fimg2d_open alloc mm =>
    simp only [step, open_keeps_drvact]
    exact hd
  | fimg2d_release f =>
    simp only [step, release_keeps_drvact]
    exact hd
  | fimg2d_suspend =>
    simp only [step, suspend_keeps_drvact]
    exact hd
  | fimg2d_resume =>
    simp only [step, (resume_effect s).1]
    exact hd
  | fimg2d_irq =>
    by_cases hc : s.mem.ctrl.clkon ≠ 0
    · simp only [step, fimg2d_irq, if_pos hc, record, hstop]
      exact hd
    · simp only [step, fimg2d_irq, if_neg hc, record]
      exact hd
  | fimg2d_ioctl f cmd arg =>
    cases cmd with
    | FIMG2D_BITBLT_BLIT =>
      simp only [step, ioctl_blit_closed cfg ops f arg s (Or.inl hd)]
      exact hd
    | FIMG2D_BITBLT_VERSION =>
      cases hw : arg.writable <;> simpa [step, fimg2d_ioctl, record, hw] using hd
    | FIMG2D_BITBLT_ACTIVATE =>
      cases hr : arg.readable with
      | none => simpa [step, fimg2d_ioctl, record, hr] using hd
      | some act =>
        have hact : act ≠ 0 := by
          intro h0
          simp [reactivates, hr, h0, DRV_ACT] at ho
        simpa [step, fimg2d_ioctl, record, hr, g2d_lock, g2d_unlock, atomic_set_drvact,
          set_ctrl] using hact
    | other nr => simpa [step, fimg2d_ioctl, record] using hd

/-- From a deactivated controller, without a reactivating request, every
submission returns `-EPERM`. -/
theorem run_deactivated (cfg : Config) (ops : Ops) (env : Interference)
    (hstop : ∀ m, (ops.stop m).ctrl.drvact = m.ctrl.drvact) (os : List Op) (s : State)
    (hd : s.mem.ctrl.drvact ≠ 0) (ho : ∀ o ∈ os, reactivates o = false) :
    (run cfg ops env os s).2.mem.ctrl.drvact ≠ 0 ∧
    ∀ (i : Nat) g a, os[i]? = some (Op.fimg2d_ioctl g IoctlCmd.FIMG2D_BITBLT_BLIT a) →
      (run cfg ops env os s).1[i]? = some (-EPERM) := by
  induction os generalizing s with
  | nil => exact ⟨hd, by simp⟩
  | cons o os ih =>
    have hstep := step_keeps_deactivated cfg ops env hstop o s hd (ho o (by simp))
    obtain ⟨h1, h2⟩ := ih (step cfg ops env o s).2 hstep
      (fun x hx => ho x (List.mem_cons_of_mem _ hx))
    refine ⟨h1, ?_⟩
    intro i g a hi
    cases i with
    | zero =>
      simp only [List.getElem?_cons_zero, Option.some.injEq] at hi
      subst hi
      simp [run, step, ioctl_blit_closed cfg ops g a s (Or.inl hd)]
    | succ k =>
      simp only [List.getElem?_cons_succ] at hi
      simpa [run] using h2 k g a hi

/-- Running a concatenation. -/
theorem run_append (cfg : Config) (ops : Ops) (env : Interference) (xs ys : List Op)
    (s : State) :
    run cfg ops env (xs ++ ys) s =
      ((run cfg ops env xs s).1 ++ (run cfg ops env ys (run cfg ops env xs s).2).1,
        (run cfg ops env ys (run cfg ops env xs s).2).2) := by
  induction xs generalizing s with
  | nil => simp [run]
  | cons x xs ih => simp [run, ih]

/-- One return value per operation. -/
theorem run_length (cfg : Config) (ops : Ops) (env : Interference) (xs : List Op)
    (s : State) : (run cfg ops env xs s).1.length = xs.length := by
  induction xs generalizing s with
  | nil => simp [run]
  | cons x xs ih => simp [run, ih]

/-- A `FIMG2D_BITBLT_ACTIVATE` request that reads `act` stores it and returns 0. -/
theorem activate_stores (cfg : Config) (ops : Ops) (env : Interference) (f : file)
    (arg : UserArg) (act : Int) (s : State) (hr : arg.readable = some act) :
    (step cfg ops env (Op.fimg2d_ioctl f IoctlCmd.FIMG2D_BITBLT_ACTIVATE arg) s).1 = 0 ∧
    (step cfg ops env (Op.fimg2d_ioctl f IoctlCmd.FIMG2D_BITBLT_ACTIVATE arg)
      s).2.mem.ctrl.drvact = act := by
  simp [step, fimg2d_ioctl, hr, record, g2d_lock, g2d_unlock, atomic_set_drvact, set_ctrl]

/-! ## Admission gate of `fimg2d_ioctl` -/

/-- C1: when `drvact` or `suspended` is non-zero, `FIMG2D_BITBLT_BLIT` returns
`-EPERM`, leaves all of memory (queue, pending counts, every controller flag),
the fine lock and the clock as they were, and calls nothing but the lock and
unlock of `drvlock` (so neither `fimg2d_add_command` nor
`fimg2d_request_bitblt`); when both are zero the first call after taking the
lock is `fimg2d_add_command` on the caller's context, on the memory as it was. -/
theorem ioctl_blit_gate (cfg : Config) (ops : Ops) (f : file) (arg : UserArg) (s : State) :
    ((s.mem.ctrl.drvact ≠ 0 ∨ s.mem.ctrl.suspended ≠ 0) →
      (fimg2d_ioctl cfg ops f IoctlCmd.FIMG2D_BITBLT_BLIT arg s).1 = -EPERM ∧
      (fimg2d_ioctl cfg ops f IoctlCmd.FIMG2D_BITBLT_BLIT arg s).2.mem = s.mem ∧
      (fimg2d_ioctl cfg ops f IoctlCmd.FIMG2D_BITBLT_BLIT arg s).2.log =
        s.log ++ [Event.g2d_lock_drvlock, Event.g2d_unlock_drvlock] ∧
      (fimg2d_ioctl cfg ops f IoctlCmd.FIMG2D_BITBLT_BLIT arg s).2.bltlock = s.bltlock ∧
      (fimg2d_ioctl cfg ops f IoctlCmd.FIMG2D_BITBLT_BLIT arg s).2.now = s.now ∧
      (fimg2d_ioctl cfg ops f IoctlCmd.FIMG2D_BITBLT_BLIT arg s).2.drvlock = false) ∧
    ((s.mem.ctrl.drvact = 0 ∧ s.mem.ctrl.suspended = 0) →
      ∃ rest, (fimg2d_ioctl cfg ops f IoctlCmd.FIMG2D_BITBLT_BLIT arg s).2.log =
        s.log ++ Event.g2d_lock_drvlock ::
          Event.fimg2d_add_command f.private_data
            (ops.fimg2d_add_command s.mem f.private_data arg.addr).1 :: rest) := by
  constructor
  · intro h
    rw [ioctl_blit_closed cfg ops f arg s h]
    simp [g2d_unlock, g2d_lock, record]
  · intro h
    obtain ⟨d, hd, _, _⟩ := ioctl_blit_open_log cfg ops f arg s h
    exact ⟨d ++ [Event.g2d_unlock_drvlock], by simpa using hd⟩

/-- C1 at concrete inputs: a deactivated controller rejects the submission
with `-EPERM`; the controller as probe leaves it admits it. -/
theorem ioctl_blit_gate_witness :
    (fimg2d_ioctl cfg_pm ideal_ops ⟨1⟩ IoctlCmd.FIMG2D_BITBLT_BLIT ⟨0, none, false⟩
        (set_ctrl (fun c => { c with drvact := DRV_DEACT }) boot)).1 = -EPERM ∧
    ∃ rest, (fimg2d_ioctl cfg_pm ideal_ops ⟨1⟩ IoctlCmd.FIMG2D_BITBLT_BLIT ⟨0, none, false⟩
        boot).2.log =
      boot.log ++ Event.g2d_lock_drvlock :: Event.fimg2d_add_command 1 0 :: rest :=
  ⟨((ioctl_blit_gate cfg_pm ideal_ops ⟨1⟩ ⟨0, none, false⟩
      (set_ctrl (fun c => { c with drvact := DRV_DEACT }) boot)).1
      (Or.inl (by decide))).1,
   (ioctl_blit_gate cfg_pm ideal_ops ⟨1⟩ ⟨0, none, false⟩ boot).2 ⟨rfl, rfl⟩⟩

/-! ## Lock discipline of `fimg2d_ioctl` -/

/-- C9: with `drvlock` free on entry, every request to `fimg2d_ioctl` (blit,
version, activate, unknown; every outcome of the code it calls) takes and
releases `drvlock` equally often and leaves it free, and every call of
`fimg2d_add_command` and of `fimg2d_request_bitblt` it makes happens with the
lock taken once and not yet released. -/
theorem ioctl_lock_discipline (cfg : Config) (ops : Ops) (f : file) (cmd : IoctlCmd)
    (arg : UserArg) (s : State) (hfree : s.drvlock = false) :
    ∃ d, (fimg2d_ioctl cfg ops f cmd arg s).2.log = s.log ++ d ∧
      acquired d = released d ∧
      (fimg2d_ioctl cfg ops f cmd arg s).2.drvlock = false ∧
      ∀ pre post e, d = pre ++ e :: post → is_admission_or_dispatch e = true →
        acquired pre = 1 ∧ released pre = 0 := by
  have hne : ∀ e, is_admission_or_dispatch e = true →
      e ≠ Event.g2d_lock_drvlock ∧ e ≠ Event.g2d_unlock_drvlock := by
    intro e he
    constructor <;> rintro rfl <;> simp [is_admission_or_dispatch] at he
  have hnone : ∀ (d pre post : List Event) (e : Event),
      (∀ x ∈ d, is_admission_or_dispatch x = false) → d = pre ++ e :: post →
      is_admission_or_dispatch e = true → acquired pre = 1 ∧ released pre = 0 := by
    intro d pre post e hd hsplit he
    rw [hd e (by simp [hsplit])] at he
    exact absurd he (by decide)
  cases cmd with
  | FIMG2D_BITBLT_BLIT =>
    by_cases h : s.mem.ctrl.drvact ≠ 0 ∨ s.mem.ctrl.suspended ≠ 0
    · refine ⟨[Event.g2d_lock_drvlock, Event.g2d_unlock_drvlock], ?_, ?_, ?_, ?_⟩
      · rw [ioctl_blit_closed cfg ops f arg s h]
        simp [g2d_unlock, g2d_lock, record]
      · simp [acquired, released]
      · rw [ioctl_blit_closed cfg ops f arg s h]
        simp [g2d_unlock, record]
      · intro pre post e hsplit he
        refine hnone _ pre post e ?_ hsplit he
        intro x hx
        simp only [List.mem_cons, List.mem_singleton, List.not_mem_nil, or_false] at hx
        rcases hx with rfl | rfl <;> rfl
    · have h0 : s.mem.ctrl.drvact = 0 ∧ s.mem.ctrl.suspended = 0 := by
        simpa [not_or] using h
      obtain ⟨d, hd, hu, hl⟩ := ioctl_blit_open_log cfg ops f arg s h0
      have hmid : drvlock_untouched (Event.fimg2d_add_command f.private_data
          (ops.fimg2d_add_command s.mem f.private_data arg.addr).1 :: d) := by
        simp only [drvlock_untouched] at hu ⊢
        simp [hu.1, hu.2]
      have hcnt := untouched_counts _ hmid
      refine ⟨_, hd, ?_, hl, ?_⟩
      · simp only [acquired, released] at hcnt ⊢
        simp only [List.count_cons, List.count_append, List.count_nil] at hcnt ⊢
        simp at hcnt ⊢
        omega
      · intro pre post e hsplit he
        exact critical_section_held _ pre post e hmid hsplit (hne e he).1 (hne e he).2
  | FIMG2D_BITBLT_VERSION =>
    refine ⟨[Event.copy_to_user ops.hw_ver 0 arg.writable], ?_, ?_, ?_, ?_⟩
    · cases hw : arg.writable <;> simp [fimg2d_ioctl, record, hw]
    · simp [acquired, released]
    · cases hw : arg.writable <;> simp [fimg2d_ioctl, record, hw, hfree]
    · intro pre post e hsplit he
      refine hnone _ pre post e ?_ hsplit he
      intro x hx
      simp only [List.mem_singleton] at hx
      subst hx
      rfl
  | FIMG2D_BITBLT_ACTIVATE =>
    cases hr : arg.readable with
    | none =>
      refine ⟨[Event.copy_from_user none], ?_, ?_, ?_, ?_⟩
      · simp [fimg2d_ioctl, record, hr]
      · simp [acquired, released]
      · simp [fimg2d_ioctl, record, hr, hfree]
      · intro pre post e hsplit he
        refine hnone _ pre post e ?_ hsplit he
        intro x hx
        simp only [List.mem_singleton] at hx
        subst hx
        rfl
    | some act =>
      refine ⟨[Event.copy_from_user (some act), Event.g2d_lock_drvlock,
        Event.atomic_set_drvact act, Event.g2d_unlock_drvlock], ?_, ?_, ?_, ?_⟩
      · simp [fimg2d_ioctl, record, hr, g2d_lock, g2d_unlock, set_ctrl, atomic_set_drvact]
      · simp [acquired, released]
      · simp [fimg2d_ioctl, record, hr, g2d_unlock]
      · intro pre post e hsplit he
        refine hnone _ pre post e ?_ hsplit he
        intro x hx
        simp only [List.mem_cons, List.mem_singleton, List.not_mem_nil, or_false] at hx
        rcases hx with rfl | rfl | rfl | rfl <;> rfl
  | other nr =>
    refine ⟨[Event.unknown_ioctl], ?_, ?_, ?_, ?_⟩
    · simp [fimg2d_ioctl, record]
    · simp [acquired, released]
    · simp [fimg2d_ioctl, record, hfree]
    · intro pre post e hsplit he
      refine hnone _ pre post e ?_ hsplit he
      intro x hx
      simp only [List.mem_singleton] at hx
      subst hx
      rfl

/-- C9 at a concrete input: a submission to the controller as probe leaves it,
which is admitted and dispatched between the lock and the unlock. -/
theorem ioctl_lock_discipline_witness :
    boot.drvlock = false ∧
    (fimg2d_ioctl cfg_pm ideal_ops ⟨1⟩ IoctlCmd.FIMG2D_BITBLT_BLIT ⟨0, none, false⟩
        boot).2.log =
      [Event.g2d_lock_drvlock, Event.fimg2d_add_command 1 0,
       Event.fimg2d_request_bitblt 1, Event.fimg2d_clk_on, Event.pm_runtime_get_sync,
       Event.platform_sysmmu_on 0, Event.blit 0, Event.platform_sysmmu_off,
       Event.pm_runtime_put_sync, Event.fimg2d_clk_off, Event.g2d_unlock_drvlock] ∧
    ∃ d, (fimg2d_ioctl cfg_pm ideal_ops ⟨1⟩ IoctlCmd.FIMG2D_BITBLT_BLIT ⟨0, none, false⟩
        boot).2.log = boot.log ++ d ∧
      acquired d = released d ∧
      (fimg2d_ioctl cfg_pm ideal_ops ⟨1⟩ IoctlCmd.FIMG2D_BITBLT_BLIT ⟨0, none, false⟩
        boot).2.drvlock = false ∧
      ∀ pre post e, d = pre ++ e :: post → is_admission_or_dispatch e = true →
        acquired pre = 1 ∧ released pre = 0 :=
  ⟨rfl, by decide, ioctl_lock_discipline cfg_pm ideal_ops ⟨1⟩ IoctlCmd.FIMG2D_BITBLT_BLIT
    ⟨0, none, false⟩ boot rfl⟩

/-! ## Dispatch: `fimg2d_do_bitblt` -/

/-- C3, what the code does: under `CONFIG_PM_RUNTIME`, when
`platform_sysmmu_on` fails, `fimg2d_do_bitblt` returns that failure without
calling the blit, and it returns right after the failed call: the calls are
`fimg2d_clk_on`, `pm_runtime_get_sync`, `platform_sysmmu_on` and nothing else,
so neither `pm_runtime_put_sync` nor `fimg2d_clk_off` runs and `clkon` is
still 1. -/
theorem do_bitblt_sysmmu_failure_keeps_clock_on (cfg : Config) (ops : Ops) (s : State)
    (hpm : cfg.CONFIG_PM_RUNTIME = true)
    (hfail : ops.platform_sysmmu_on (power_up cfg s).mem < 0) :
    (fimg2d_do_bitblt cfg ops s).1 = ops.platform_sysmmu_on (power_up cfg s).mem ∧
    (fimg2d_do_bitblt cfg ops s).2.log =
      s.log ++ [Event.fimg2d_clk_on, Event.pm_runtime_get_sync,
        Event.platform_sysmmu_on (ops.platform_sysmmu_on (power_up cfg s).mem)] ∧
    (fimg2d_do_bitblt cfg ops s).2.mem.ctrl.clkon = 1 := by
  rw [do_bitblt_fail cfg ops s hfail]
  refine ⟨rfl, ?_, ?_⟩
  · simp [record, power_up_log, power_up_calls, hpm]
  · simp [record, power_up, hpm, fimg2d_clk_on, set_ctrl]

/-- C3 at a concrete input: the controller as probe leaves it (clock off) and
an address-space enable that fails with `-EBUSY`. -/
theorem do_bitblt_sysmmu_failure_keeps_clock_on_witness :
    (fimg2d_do_bitblt cfg_pm mmu_fault_ops boot).1 = -EBUSY ∧
    (fimg2d_do_bitblt cfg_pm mmu_fault_ops boot).2.log =
      boot.log ++ [Event.fimg2d_clk_on, Event.pm_runtime_get_sync,
        Event.platform_sysmmu_on (-EBUSY)] ∧
    (fimg2d_do_bitblt cfg_pm mmu_fault_ops boot).2.mem.ctrl.clkon = 1 :=
  do_bitblt_sysmmu_failure_keeps_clock_on cfg_pm mmu_fault_ops boot rfl (by decide)

/-- C4 does not hold of every build: without `CONFIG_PM_RUNTIME`, on the
state probe leaves (clock on) and with fault-free hardware, the address-space
enable succeeds and `fimg2d_do_bitblt` calls `platform_sysmmu_on`, the blit
and `platform_sysmmu_off` and nothing else: no `pm_runtime_put_sync`, no
`fimg2d_clk_off`, and `clkon` is still 1 on return. -/
theorem do_bitblt_no_power_down_without_runtime_pm :
    0 ≤ ideal_ops.platform_sysmmu_on (power_up cfg_always_on boot_always_on).mem ∧
    (fimg2d_do_bitblt cfg_always_on ideal_ops boot_always_on).2.log =
      boot_always_on.log ++
        [Event.platform_sysmmu_on 0, Event.blit 0, Event.platform_sysmmu_off] ∧
    List.count Event.fimg2d_clk_off
      ((fimg2d_do_bitblt cfg_always_on ideal_ops boot_always_on).2.log.drop
        boot_always_on.log.length) = 0 ∧
    List.count Event.pm_runtime_put_sync
      ((fimg2d_do_bitblt cfg_always_on ideal_ops boot_always_on).2.log.drop
        boot_always_on.log.length) = 0 ∧
    (fimg2d_do_bitblt cfg_always_on ideal_ops boot_always_on).2.mem.ctrl.clkon = 1 := by
  decide

/-- C4, amended: when `platform_sysmmu_on` succeeds, whatever the blit returns,
`fimg2d_do_bitblt` returns the blit's value, and its calls are, in order: the
power-up of the configuration, `platform_sysmmu_on`, the blit once,
`platform_sysmmu_off` once, the power-down of the configuration. Under
`CONFIG_PM_RUNTIME` the power-up is `fimg2d_clk_on`, `pm_runtime_get_sync`,
the power-down is `pm_runtime_put_sync`, `fimg2d_clk_off`, each once, and
`clkon` is 0 on return; without it there is neither a power-up nor a
power-down and memory is as the blit leaves it. -/
theorem do_bitblt_success_sequence (cfg : Config) (ops : Ops) (s : State)
    (hok : 0 ≤ ops.platform_sysmmu_on (power_up cfg s).mem) :
    (fimg2d_do_bitblt cfg ops s).1 = (ops.blit (power_up cfg s).mem).1 ∧
    (fimg2d_do_bitblt cfg ops s).2.log =
      s.log ++ (if cfg.CONFIG_PM_RUNTIME then
          [Event.fimg2d_clk_on, Event.pm_runtime_get_sync] else []) ++
        [Event.platform_sysmmu_on (ops.platform_sysmmu_on (power_up cfg s).mem),
         Event.blit (ops.blit (power_up cfg s).mem).1,
         Event.platform_sysmmu_off] ++
        (if cfg.CONFIG_PM_RUNTIME then
          [Event.pm_runtime_put_sync, Event.fimg2d_clk_off] else []) ∧
    (if cfg.CONFIG_PM_RUNTIME then (fimg2d_do_bitblt cfg ops s).2.mem.ctrl.clkon = 0
      else (fimg2d_do_bitblt cfg ops s).2.mem = (ops.blit s.mem).2) := by
  rw [do_bitblt_ok cfg ops s (not_lt.mpr hok)]
  refine ⟨rfl, ?_, ?_⟩
  · simp [record, power_up_log, power_down_log, power_up_calls, power_down_calls]
  · cases hc : cfg.CONFIG_PM_RUNTIME <;>
      simp [power_down, power_up, hc, record, fimg2d_clk_off, set_ctrl]

/-- C4 at a concrete input: the controller as probe leaves it, fault-free
hardware. -/
theorem do_bitblt_success_sequence_witness :
    (fimg2d_do_bitblt cfg_pm ideal_ops boot).1 = 0 ∧
    (fimg2d_do_bitblt cfg_pm ideal_ops boot).2.log =
      [Event.fimg2d_clk_on, Event.pm_runtime_get_sync, Event.platform_sysmmu_on 0,
       Event.blit 0, Event.platform_sysmmu_off, Event.pm_runtime_put_sync,
       Event.fimg2d_clk_off] ∧
    (fimg2d_do_bitblt cfg_pm ideal_ops boot).2.mem.ctrl.clkon = 0 :=
  do_bitblt_success_sequence cfg_pm ideal_ops boot (by decide)

/-! ## Interrupt handler -/

/-- C10: `fimg2d_irq` returns `IRQ_HANDLED`; when `clkon` is non-zero it calls
the hardware stop exactly once and memory is what that call leaves; when
`clkon` is zero it calls no stop (only the warning) and memory is unchanged;
either way the locks and the clock are as they were. -/
theorem irq_stops_only_when_clock_on (ops : Ops) (s : State) :
    (fimg2d_irq ops s).1 = IRQ_HANDLED ∧
    (fimg2d_irq ops s).2.log =
      s.log ++ (if s.mem.ctrl.clkon ≠ 0 then [Event.stop] else [Event.warn_on]) ∧
    (fimg2d_irq ops s).2.mem = (if s.mem.ctrl.clkon ≠ 0 then ops.stop s.mem else s.mem) ∧
    (fimg2d_irq ops s).2.drvlock = s.drvlock ∧
    (fimg2d_irq ops s).2.bltlock = s.bltlock ∧
    (fimg2d_irq ops s).2.now = s.now := by
  by_cases h : s.mem.ctrl.clkon ≠ 0
  · simp only [fimg2d_irq, if_pos h]
    simp [record]
  · simp only [fimg2d_irq, if_neg h]
    simp [record]

/-! ## Bounded drain of `fimg2d_release` and `fimg2d_suspend` -/

/-- C5: whatever other execution contexts do to the pending count,
`fimg2d_release` takes `drvlock` and polls the pending count in memory: poll 0
reads the count as it is at the call, and each later poll reads what the
interference made of the previous one during the `mdelay(2)` in between. It
runs `n` busy rounds (a read of a non-zero count, then `mdelay(2)`), where `n`
is the number of the first poll at which the count is zero, or 1000 if there
is none among polls 0 to 999: so it stops at the first read of zero, or after
1000 reads and 1000 delays, 2000 ms. It then always runs the teardown (the
release of each frequency floor the configuration has, `fimg2d_del_context`,
`kfree`, unlock) and returns 0; the context is out of the controller's set,
the other contexts stay, and the count it is freed with is the one memory
holds after the `n` delays, zero or not. -/
theorem release_bounded_drain (cfg : Config) (env : Interference) (f : file) (s : State) :
    ncmd_at_poll env f.private_data s 0 = (s.mem.ctx f.private_data).ncmd ∧
    (∀ k, ncmd_at_poll env f.private_data s (k + 1) =
      env.ncmd (s.now + 2 * k) f.private_data (ncmd_at_poll env f.private_data s k)) ∧
    ∃ n : Nat, n ≤ 1000 ∧
      (∀ k, k < n → ncmd_at_poll env f.private_data s k ≠ 0) ∧
      (n < 1000 → ncmd_at_poll env f.private_data s n = 0) ∧
      (fimg2d_release cfg env f s).2.log =
        s.log ++ [Event.g2d_lock_drvlock] ++
          busy_polls f.private_data ((List.range n).map (ncmd_at_poll env f.private_data s)) ++
          (if n < 1000 then [Event.atomic_read_ncmd f.private_data 0] else []) ++
          teardown_calls cfg f.private_data ∧
      n + (if n < 1000 then 1 else 0) ≤ 1000 ∧
      (fimg2d_release cfg env f s).2.now = s.now + 2 * n ∧
      (fimg2d_release cfg env f s).2.now ≤ s.now + 2000 ∧
      (fimg2d_release cfg env f s).1 = 0 ∧
      (fimg2d_release cfg env f s).2.mem.ctrl.contexts =
        s.mem.ctrl.contexts.filter (fun p => p != f.private_data) ∧
      f.private_data ∉ (fimg2d_release cfg env f s).2.mem.ctrl.contexts ∧
      ((fimg2d_release cfg env f s).2.mem.ctx f.private_data).ncmd =
        ncmd_at_poll env f.private_data s n ∧
      (fimg2d_release cfg env f s).2.drvlock = false := by
  refine ⟨rfl, ncmd_at_poll_succ env f.private_data s, ?_⟩
  have hentry : same_unlocked (g2d_lock s) s := by simp [same_unlocked, g2d_lock, record]
  obtain ⟨n, hlen, hbusy, hzero, hlog, hsame⟩ :=
    release_wait_polls env f.private_data POLL_RETRY (g2d_lock s)
  obtain ⟨_, _, _, _, _, hlocked⟩ :=
    release_wait_spec env f.private_data POLL_RETRY (g2d_lock s)
  have hT := release_teardown_effect cfg f.private_data
    (release_wait env f.private_data POLL_RETRY (g2d_lock s))
  have hpoll : ncmd_at_poll env f.private_data (g2d_lock s) = ncmd_at_poll env f.private_data s :=
    funext (ncmd_at_poll_congr env f.private_data (g2d_lock s) s hentry)
  have hend := waited_same_unlocked env n (g2d_lock s) s hentry
  have hnow : (release_wait env f.private_data POLL_RETRY (g2d_lock s)).now = s.now + 2 * n := by
    rw [hsame.1, hend.1, waited_now]
  rw [hpoll] at hbusy hzero hlog
  simp only [POLL_RETRY] at hlen hzero hlog hT hnow hsame hlocked
  refine ⟨n, hlen, hbusy, hzero, ?_, ?_, ?_, ?_, rfl, ?_, ?_, ?_, ?_⟩
  · simp only [fimg2d_release, release_teardown_log, POLL_RETRY, hlog]
    simp [g2d_lock, record]
  · split <;> omega
  · simp only [fimg2d_release, POLL_RETRY, hT.2.2.2.2, hnow]
  · simp only [fimg2d_release, POLL_RETRY, hT.2.2.2.2, hnow]
    omega
  · simp only [fimg2d_release, POLL_RETRY, hT.1, hlocked.2.2.2.1]
    simp [g2d_lock, record]
  · simp only [fimg2d_release, POLL_RETRY, hT.1]
    simp [List.mem_filter]
  · simp only [fimg2d_release, POLL_RETRY, hT.2.1, hsame.2.2.2.2, ncmd_at_poll, hend.2.2.2.2]
  · simp only [fimg2d_release, POLL_RETRY, hT.2.2.1]

/-- C5 at concrete inputs, one pending command on context 1. When the command
completes 4 ms into the wait, the release reads 1 three times, delays three
times, reads 0 and tears down after 6 ms. When the engine is wedged, the
release spends the whole budget of 2000 ms, then returns 0 and frees the
context with its count still 1. -/
theorem release_bounded_drain_witness :
    (fimg2d_release cfg_pm settling ⟨1⟩ boot_pending).2.log =
      [Event.g2d_lock_drvlock,
       Event.atomic_read_ncmd 1 1, Event.mdelay 2,
       Event.atomic_read_ncmd 1 1, Event.mdelay 2,
       Event.atomic_read_ncmd 1 1, Event.mdelay 2,
       Event.atomic_read_ncmd 1 0,
       Event.exynos_cpufreq_lock_freq 0, Event.dev_unlock,
       Event.fimg2d_del_context 1, Event.kfree 1, Event.g2d_unlock_drvlock] ∧
    (fimg2d_release cfg_pm settling ⟨1⟩ boot_pending).2.now = 6 ∧
    (fimg2d_release cfg_pm wedged ⟨1⟩ boot_pending).1 = 0 ∧
    (fimg2d_release cfg_pm wedged ⟨1⟩ boot_pending).2.now = 2000 ∧
    ((fimg2d_release cfg_pm wedged ⟨1⟩ boot_pending).2.mem.ctx 1).ncmd = 1 := by
  refine ⟨by decide, by decide, ?_⟩
  obtain ⟨h0, hs, n, hn, _, hzero, _, _, hnow, _, hret, _, _, hfinal, _⟩ :=
    release_bounded_drain cfg_pm wedged ⟨1⟩ boot_pending
  have hall : ∀ k, ncmd_at_poll wedged 1 boot_pending k = 1 := by
    intro k
    cases k with
    | zero => exact h0
    | succ j => exact hs j
  have hn1000 : n = 1000 := by
    by_contra hne
    have hz := hzero (by omega)
    rw [hall n] at hz
    exact absurd hz (by decide)
  subst hn1000
  refine ⟨hret, ?_, ?_⟩
  · rw [hnow]
    rfl
  · rw [hfinal]
    exact hall 1000

/-- C7: when the pending count of the context is zero at the call,
`fimg2d_release` reads it once, calls no `mdelay` and spends no time waiting,
then runs the teardown (`fimg2d_del_context`, `kfree`); the context is out of
the controller's set and the return value is 0. -/
theorem release_idle_context_no_delay (cfg : Config) (env : Interference) (f : file)
    (s : State) (hidle : (s.mem.ctx f.private_data).ncmd = 0) :
    (fimg2d_release cfg env f s).2.log =
      s.log ++ [Event.g2d_lock_drvlock, Event.atomic_read_ncmd f.private_data 0] ++
        teardown_calls cfg f.private_data ∧
    (∀ ms, Event.mdelay ms ∉
      [Event.g2d_lock_drvlock, Event.atomic_read_ncmd f.private_data 0] ++
        teardown_calls cfg f.private_data) ∧
    (fimg2d_release cfg env f s).2.now = s.now ∧
    (fimg2d_release cfg env f s).1 = 0 ∧
    f.private_data ∉ (fimg2d_release cfg env f s).2.mem.ctrl.contexts ∧
    (fimg2d_release cfg env f s).2.mem.ctx = s.mem.ctx := by
  have hw : release_wait env f.private_data POLL_RETRY (g2d_lock s) =
      record (Event.atomic_read_ncmd f.private_data 0) (g2d_lock s) := by
    have h0 : ((g2d_lock s).mem.ctx f.private_data).ncmd = 0 := hidle
    exact release_wait_idle env f.private_data 999 (g2d_lock s) h0
  have hT := release_teardown_effect cfg f.private_data
    (record (Event.atomic_read_ncmd f.private_data 0) (g2d_lock s))
  refine ⟨?_, ?_, ?_, rfl, ?_, ?_⟩
  · simp only [fimg2d_release, hw, release_teardown_log]
    simp [g2d_lock, record]
  · intro ms
    cases h1 : cfg.CONFIG_CPU_FREQ <;> cases h2 : cfg.CONFIG_BUSFREQ_OPP <;>
      simp [teardown_calls, h1, h2]
  · simp only [fimg2d_release, hw, hT.2.2.2.2]
    simp [g2d_lock, record]
  · simp only [fimg2d_release, hw, hT.1]
    simp [List.mem_filter]
  · simp only [fimg2d_release, hw, hT.2.1]
    simp [g2d_lock, record]

/-- C7 at a concrete input: a context just opened on the controller as probe
leaves it. -/
theorem release_idle_context_no_delay_witness :
    (fimg2d_release cfg_pm wedged ⟨1⟩ (fimg2d_open cfg_pm (some 1) 7 ⟨0⟩ boot).2.2).1 = 0 ∧
    (fimg2d_release cfg_pm wedged ⟨1⟩ (fimg2d_open cfg_pm (some 1) 7 ⟨0⟩ boot).2.2).2.now = 0 ∧
    (1 : Nat) ∉
      (fimg2d_release cfg_pm wedged ⟨1⟩
        (fimg2d_open cfg_pm (some 1) 7 ⟨0⟩ boot).2.2).2.mem.ctrl.contexts :=
  have h := release_idle_context_no_delay cfg_pm wedged ⟨1⟩
    (fimg2d_open cfg_pm (some 1) 7 ⟨0⟩ boot).2.2 (by simp [fimg2d_open, g2d_lock,
      g2d_unlock, fimg2d_add_context, record, set_ctrl, cfg_pm, boot])
  ⟨h.2.2.2.1, h.2.2.1, h.2.2.2.2.1⟩

/-- C6: whatever other execution contexts do to the queue, `fimg2d_suspend`
stores 1 to `suspended` (under both locks) before its first queue check, then
checks the queue in memory: check 0 sees the queue as it is at the call, and
each later check sees what the interference made of the previous one during
the `mdelay(2)` in between. It runs `n` busy rounds (a check that finds the
queue non-empty, then `mdelay(2)`), where `n` is the number of the first check
at which the queue is empty, or 1000 if there is none among checks 0 to 999:
so it stops at the first empty check, or after 1000 checks and 1000 delays,
2000 ms. It returns 0 whether the queue drained or not, with `suspended` still
1, `drvlock` released, and the queue as memory holds it after the `n` delays. -/
theorem suspend_bounded_drain (env : Interference) (s : State) :
    queue_at_check env s 0 = s.mem.ctrl.cmd_q ∧
    (∀ k, queue_at_check env s (k + 1) =
      env.cmd_q (s.now + 2 * k) (queue_at_check env s k)) ∧
    ∃ n : Nat, n ≤ 1000 ∧
      (∀ k, k < n → fimg2d_queue_is_empty (queue_at_check env s k) = false) ∧
      (n < 1000 → fimg2d_queue_is_empty (queue_at_check env s n) = true) ∧
      (fimg2d_suspend env s).2.log =
        s.log ++ [Event.g2d_lock_drvlock, Event.g2d_spin_lock_bltlock,
          Event.atomic_set_suspended 1, Event.g2d_spin_unlock_bltlock] ++
          busy_checks n ++
          (if n < 1000 then [Event.fimg2d_queue_is_empty true] else []) ++
          [Event.g2d_unlock_drvlock] ∧
      n + (if n < 1000 then 1 else 0) ≤ 1000 ∧
      (fimg2d_suspend env s).2.now = s.now + 2 * n ∧
      (fimg2d_suspend env s).2.now ≤ s.now + 2000 ∧
      (fimg2d_suspend env s).1 = 0 ∧
      (fimg2d_suspend env s).2.mem.ctrl.suspended = 1 ∧
      (fimg2d_suspend env s).2.mem.ctrl.cmd_q = queue_at_check env s n ∧
      (fimg2d_suspend env s).2.drvlock = false := by
  refine ⟨rfl, queue_at_check_succ env s, ?_⟩
  have hentry : same_unlocked
      (g2d_spin_unlock (atomic_set_suspended 1 (g2d_spin_lock (g2d_lock s)))) s := by
    simp [same_unlocked, g2d_lock, g2d_spin_lock, g2d_spin_unlock, atomic_set_suspended,
      set_ctrl, record]
  obtain ⟨n, hlen, hbusy, hempty, hlog, hsame⟩ := suspend_wait_checks env POLL_RETRY
    (g2d_spin_unlock (atomic_set_suspended 1 (g2d_spin_lock (g2d_lock s))))
  obtain ⟨_, _, _, _, hlocked⟩ := suspend_wait_spec env POLL_RETRY
    (g2d_spin_unlock (atomic_set_suspended 1 (g2d_spin_lock (g2d_lock s))))
  have hq : queue_at_check env
      (g2d_spin_unlock (atomic_set_suspended 1 (g2d_spin_lock (g2d_lock s)))) =
      queue_at_check env s :=
    funext (queue_at_check_congr env _ s hentry)
  have hend := waited_same_unlocked env n _ s hentry
  have hnow : (suspend_wait env POLL_RETRY
      (g2d_spin_unlock (atomic_set_suspended 1 (g2d_spin_lock (g2d_lock s))))).now =
      s.now + 2 * n := by
    rw [hsame.1, hend.1, waited_now]
  rw [hq] at hbusy hempty
  simp only [POLL_RETRY, same_locked_fields] at hlen hempty hlog hnow hsame hlocked
  refine ⟨n, hlen, hbusy, hempty, ?_, ?_, ?_, ?_, rfl, ?_, ?_, ?_⟩
  · simp only [fimg2d_suspend, g2d_unlock, record, POLL_RETRY, hlog]
    simp [g2d_lock, g2d_spin_lock, g2d_spin_unlock, atomic_set_suspended, set_ctrl, record]
  · split <;> omega
  · simp only [fimg2d_suspend, g2d_unlock, record, POLL_RETRY, hnow]
  · simp only [fimg2d_suspend, g2d_unlock, record, POLL_RETRY, hnow]
    omega
  · simp only [fimg2d_suspend, g2d_unlock, record, POLL_RETRY, hlocked.2.1]
    simp [g2d_lock, g2d_spin_lock, g2d_spin_unlock, atomic_set_suspended, set_ctrl, record]
  · simp only [fimg2d_suspend, g2d_unlock, record, POLL_RETRY, hsame.2.1]
    exact hend.2.1
  · simp [fimg2d_suspend, g2d_unlock, record]

/-- C6 at concrete inputs, one command queued. When the command completes 4 ms
into the wait, the suspend finds the queue non-empty three times, delays three
times, finds it empty and returns after 6 ms. When the engine is wedged, the
suspend spends the whole budget of 2000 ms and returns 0 with the command
still queued and `suspended` set. -/
theorem suspend_bounded_drain_witness :
    (fimg2d_suspend settling boot_pending).2.log =
      [Event.g2d_lock_drvlock, Event.g2d_spin_lock_bltlock,
       Event.atomic_set_suspended 1, Event.g2d_spin_unlock_bltlock,
       Event.fimg2d_queue_is_empty false, Event.mdelay 2,
       Event.fimg2d_queue_is_empty false, Event.mdelay 2,
       Event.fimg2d_queue_is_empty false, Event.mdelay 2,
       Event.fimg2d_queue_is_empty true,
       Event.g2d_unlock_drvlock] ∧
    (fimg2d_suspend settling boot_pending).2.now = 6 ∧
    (fimg2d_suspend wedged boot_pending).1 = 0 ∧
    (fimg2d_suspend wedged boot_pending).2.now = 2000 ∧
    (fimg2d_suspend wedged boot_pending).2.mem.ctrl.cmd_q = [⟨1, 0⟩] ∧
    (fimg2d_suspend wedged boot_pending).2.mem.ctrl.suspended = 1 := by
  refine ⟨by decide, by decide, ?_⟩
  obtain ⟨h0, hs, n, hn, _, hempty, _, _, hnow, _, hret, hsusp, hfinal, _⟩ :=
    suspend_bounded_drain wedged boot_pending
  have hall : ∀ k, queue_at_check wedged boot_pending k = [⟨1, 0⟩] := by
    intro k
    cases k with
    | zero => exact h0
    | succ j => exact hs j
  have hn1000 : n = 1000 := by
    by_contra hne
    have hz := hempty (by omega)
    rw [hall n] at hz
    exact absurd hz (by decide)
  subst hn1000
  refine ⟨hret, ?_, ?_, hsusp⟩
  · rw [hnow]
    rfl
  · rw [hfinal]
    exact hall 1000

/-! ## Suspend and resume -/

/-- C8: on a controller whose queue is empty, `fimg2d_suspend` followed by
`fimg2d_resume` leaves memory as it was except that `suspended` is 0 (so
`drvact`, every other flag, the queue and the contexts are unchanged);
repeating the pair `n` times, `n` at least 1, leaves the same memory, locks
and clock as doing it once; so does suspending twice compared with once, and
resuming twice compared with once. -/
theorem suspend_resume_idempotent (env : Interference) (s : State)
    (hq : s.mem.ctrl.cmd_q = []) :
    (suspend_resume env s).mem = { s.mem with ctrl := { s.mem.ctrl with suspended := 0 } } ∧
    (suspend_resume env s).mem.ctrl.drvact = s.mem.ctrl.drvact ∧
    (suspend_resume env s).mem.ctrl.suspended = 0 ∧
    (∀ n, 1 ≤ n → same_but_log ((suspend_resume env)^[n] s) (suspend_resume env s)) ∧
    same_but_log (fimg2d_suspend env (fimg2d_suspend env s).2).2 (fimg2d_suspend env s).2 ∧
    same_but_log (fimg2d_resume (fimg2d_resume s).2).2 (fimg2d_resume s).2 := by
  obtain ⟨b1, _, _, _⟩ := suspend_resume_idle env s hq
  refine ⟨b1, by rw [b1], by rw [b1], ?_, ?_, ?_⟩
  · intro n hn
    obtain ⟨k, rfl⟩ : ∃ k, n = k + 1 := ⟨n - 1, by omega⟩
    exact suspend_resume_iterate env s hq k
  · obtain ⟨h1, h2, h3, h4⟩ := suspend_idle env s hq
    have hq2 : (fimg2d_suspend env s).2.mem.ctrl.cmd_q = [] := by
      rw [h1]
      exact hq
    obtain ⟨g1, g2, g3, g4⟩ := suspend_idle env _ hq2
    refine ⟨?_, ?_, ?_, ?_⟩
    · rw [g1, h1]
    · rw [g2, h2]
    · rw [g3, h3]
    · rw [g4]
  · obtain ⟨h1, h2, h3, h4⟩ := resume_effect s
    obtain ⟨g1, g2, g3, g4⟩ := resume_effect (fimg2d_resume s).2
    refine ⟨?_, ?_, ?_, ?_⟩
    · rw [g1, h1]
    · rw [g2, h2]
    · rw [g3, h3]
    · rw [g4]

/-- C8 at a concrete input: the controller as probe leaves it, deactivated,
with a wedged engine around it. -/
theorem suspend_resume_idempotent_witness :
    (suspend_resume wedged (atomic_set_drvact DRV_DEACT boot)).mem.ctrl.drvact = DRV_DEACT ∧
    (suspend_resume wedged (atomic_set_drvact DRV_DEACT boot)).mem.ctrl.suspended = 0 ∧
    same_but_log ((suspend_resume wedged)^[3] (atomic_set_drvact DRV_DEACT boot))
      (suspend_resume wedged (atomic_set_drvact DRV_DEACT boot)) :=
  have h := suspend_resume_idempotent wedged (atomic_set_drvact DRV_DEACT boot) rfl
  ⟨h.2.1, h.2.2.1, h.2.2.2.1 3 (by decide)⟩

/-! ## Deactivation -/

/-- C2: take any sequence of driver operations (open, release, ioctl of any
kind, suspend, resume, interrupt) that contains a `FIMG2D_BITBLT_ACTIVATE`
request delivering a value other than `DRV_ACT`, followed by operations none
of which is a `FIMG2D_BITBLT_ACTIVATE` request delivering `DRV_ACT`. Provided
the hardware stop callback does not write `drvact`, every
`FIMG2D_BITBLT_BLIT` among the later operations returns `-EPERM`, and `drvact`
is still not `DRV_ACT` at the end, whatever ran before the deactivation. -/
theorem deactivated_rejects_every_submit (cfg : Config) (ops : Ops) (env : Interference)
    (hstop : ∀ m, (ops.stop m).ctrl.drvact = m.ctrl.drvact)
    (before later : List Op) (f : file) (arg : UserArg) (act : Int)
    (hr : arg.readable = some act) (hact : act ≠ DRV_ACT)
    (hlater : ∀ o ∈ later, reactivates o = false) (s : State) :
    (∀ (i : Nat) g a, later[i]? = some (Op.fimg2d_ioctl g IoctlCmd.FIMG2D_BITBLT_BLIT a) →
      (run cfg ops env
        (before ++ Op.fimg2d_ioctl f IoctlCmd.FIMG2D_BITBLT_ACTIVATE arg :: later) s).1[
          before.length + 1 + i]? = some (-EPERM)) ∧
    (run cfg ops env
      (before ++ Op.fimg2d_ioctl f IoctlCmd.FIMG2D_BITBLT_ACTIVATE arg :: later)
      s).2.mem.ctrl.drvact ≠ DRV_ACT := by
  have hs := activate_stores cfg ops env f arg act (run cfg ops env before s).2 hr
  have hd : (step cfg ops env (Op.fimg2d_ioctl f IoctlCmd.FIMG2D_BITBLT_ACTIVATE arg)
      (run cfg ops env before s).2).2.mem.ctrl.drvact ≠ 0 := by
    rw [hs.2]
    exact hact
  obtain ⟨h1, h2⟩ := run_deactivated cfg ops env hstop later _ hd hlater
  have hlen := run_length cfg ops env before s
  constructor
  · intro i g a hi
    have h3 := h2 i g a hi
    rw [run_append]
    simp only [run]
    rw [List.getElem?_append_right (by omega)]
    have hidx : before.length + 1 + i - (run cfg ops env before s).1.length = i + 1 := by
      omega
    rw [hidx, List.getElem?_cons_succ]
    exact h3
  · rw [run_append]
    simp only [run]
    exact h1

/-- C2 at a concrete input, the scenario of the spec: open a context, submit
A, deactivate, submit B on the controller as probe leaves it. A is admitted
and returns 0, B returns `-EPERM`. -/
theorem deactivated_rejects_every_submit_witness :
    (run cfg_pm ideal_ops quiet
      [Op.fimg2d_open (some 1) 7,
       Op.fimg2d_ioctl ⟨1⟩ IoctlCmd.FIMG2D_BITBLT_BLIT ⟨100, none, false⟩,
       Op.fimg2d_ioctl ⟨1⟩ IoctlCmd.FIMG2D_BITBLT_ACTIVATE ⟨200, some DRV_DEACT, false⟩,
       Op.fimg2d_ioctl ⟨1⟩ IoctlCmd.FIMG2D_BITBLT_BLIT ⟨300, none, false⟩] boot).1[3]? =
      some (-EPERM) ∧
    (run cfg_pm ideal_ops quiet
      [Op.fimg2d_open (some 1) 7,
       Op.fimg2d_ioctl ⟨1⟩ IoctlCmd.FIMG2D_BITBLT_BLIT ⟨100, none, false⟩,
       Op.fimg2d_ioctl ⟨1⟩ IoctlCmd.FIMG2D_BITBLT_ACTIVATE ⟨200, some DRV_DEACT, false⟩,
       Op.fimg2d_ioctl ⟨1⟩ IoctlCmd.FIMG2D_BITBLT_BLIT ⟨300, none, false⟩] boot).1 =
      [0, 0, 0, -EPERM] :=
  ⟨(deactivated_rejects_every_submit cfg_pm ideal_ops quiet (fun _ => rfl)
      [Op.fimg2d_open (some 1) 7,
       Op.fimg2d_ioctl ⟨1⟩ IoctlCmd.FIMG2D_BITBLT_BLIT ⟨100, none, false⟩]
      [Op.fimg2d_ioctl ⟨1⟩ IoctlCmd.FIMG2D_BITBLT_BLIT ⟨300, none, false⟩]
      ⟨1⟩ ⟨200, some DRV_DEACT, false⟩ DRV_DEACT rfl (by decide)
      (by decide) boot).1 0 ⟨1⟩ ⟨300, none, false⟩ rfl,
   by decide⟩

end Fimg2d
